import Mathlib

/-!
# Shallow embedding of the feathr-registry core

This file embeds, in Lean 4, the parts of the `feathr-registry` Rust
workspace that the verified claims are about:

* the entity/edge data model of `registry-provider/src/models/`
  (`EntityType`, `EdgeType` with `reflection`/`is_downstream`/`validate`,
  `Entity`, `Edge`);
* the in-memory graph registry of `sql-provider/src/db_registry.rs`
  (`insert_entity`, `connect`, `delete_entity_by_id`, `bfs_traversal`,
  the id / qualified-name indices, the tombstone set, entry points);
* the full-text-search shim of `sql-provider/src/fts.rs`
  (`enable` / `add_doc` / `commit` / `index`), with the tantivy
  `IndexWriter` abstracted as a queue of pending documents that become
  visible on `commit`;
* the entity-property constructors of
  `registry-provider/src/models/entity_prop.rs` for `EntityProperty`,
  whose `lastModifiedTS` field is produced from `chrono::Utc::now()` at
  call time — the wall clock is made an explicit argument `now`;
* the request-routing decision of `RaftRegistryApp::request` in
  `raft-registry/src/app.rs`.

Conventions of the embedding:

* `Uuid` is modelled as `Nat`; `petgraph::graph::NodeIndex` and
  `EdgeIndex` are positions (`Nat`) into the node and edge arenas,
  which are Lean lists.
* `HashMap` secondary indices are association lists whose `insert` is
  `cons`; every code path that inserts first checks for absence of the
  key, so first-match `lookup` agrees with `HashMap` lookup.
* `HashSet<Uuid>` (the tombstone set) is a list with membership.
* The Rust code is generic over `EntityProp : EntityPropMutator` and
  `EdgeProp : EdgePropMutator`; the embedding is generic over the same
  data, passing the trait methods as a `PropOps` record.
* Fallible operations return an `Except RegistryError` result paired
  with the post-state; on error the state component is the unchanged
  input state, matching `&mut self` methods that return `Err` before
  mutating.
* `node_weight(i).unwrap()` on an index that is present in a secondary
  map but out of range of the arena would panic in Rust; such states are
  unreachable (the code only stores arena indices it created).  The
  embedding makes those functions total by returning the state
  unchanged in that branch; theorems that could be affected carry the
  reachable-state well-formedness hypotheses under which the branch is
  dead.
-/

namespace FeathrRegistry

/-- `uuid::Uuid`, modelled as a natural number. -/
abbrev Uuid := Nat

/-- `registry-provider/src/models/entity.rs`: `enum EntityType`. -/
inductive EntityType where
  | Unknown
  | Project
  | Source
  | Anchor
  | AnchorFeature
  | DerivedFeature
  deriving DecidableEq, Repr

/-- `EntityType::is_entry_point`: only `Project` is an entry point. -/
def EntityType.is_entry_point : EntityType → Bool
  | .Project => true
  | _ => false

/-- `registry-provider/src/models/edge.rs`: `enum EdgeType`. -/
inductive EdgeType where
  | BelongsTo
  | Contains
  | Consumes
  | Produces
  deriving DecidableEq, Repr

/-- `EdgeType::reflection`: swaps `BelongsTo`/`Contains` and
`Consumes`/`Produces`. -/
def EdgeType.reflection : EdgeType → EdgeType
  | .BelongsTo => .Contains
  | .Contains => .BelongsTo
  | .Consumes => .Produces
  | .Produces => .Consumes

/-- `EdgeType::is_downstream`: `Contains` or `Produces`. -/
def EdgeType.is_downstream : EdgeType → Bool
  | .Contains => true
  | .Produces => true
  | _ => false

/-- `EdgeType::is_upstream`: `BelongsTo` or `Consumes`. -/
def EdgeType.is_upstream : EdgeType → Bool
  | .BelongsTo => true
  | .Consumes => true
  | _ => false

/-- `EdgeType::validate` from `registry-provider/src/models/edge.rs`
(lines 49-72): the section-4.1 validation matrix.  Note this revision
also permits `DerivedFeature →Consumes→ DerivedFeature` (line 68). -/
def EdgeType.validate (self : EdgeType) (fromTy toTy : EntityType) : Bool :=
  match fromTy, toTy, self with
  | .Project, .Source, .Contains => true
  | .Project, .Anchor, .Contains => true
  | .Project, .AnchorFeature, .Contains => true
  | .Project, .DerivedFeature, .Contains => true
  | .Source, .Project, .BelongsTo => true
  | .Source, .Anchor, .Produces => true
  | .Source, .AnchorFeature, .Produces => true
  | .Anchor, .Project, .BelongsTo => true
  | .Anchor, .Source, .Consumes => true
  | .Anchor, .AnchorFeature, .Contains => true
  | .AnchorFeature, .Project, .BelongsTo => true
  | .AnchorFeature, .Source, .Consumes => true
  | .AnchorFeature, .Anchor, .BelongsTo => true
  | .AnchorFeature, .DerivedFeature, .Produces => true
  | .DerivedFeature, .Project, .BelongsTo => true
  | .DerivedFeature, .AnchorFeature, .Consumes => true
  | .DerivedFeature, .DerivedFeature, .Produces => true
  | .DerivedFeature, .DerivedFeature, .Consumes => true
  | _, _, _ => false

/-- `registry-provider/src/models/entity.rs`: `struct Entity<Prop>`.
`containers` is a `HashSet<Uuid>`, modelled as a list. -/
structure Entity (NP : Type) where
  id : Uuid
  entity_type : EntityType
  name : String
  qualified_name : String
  containers : List Uuid
  properties : NP
  deriving DecidableEq, Repr

/-- `registry-provider/src/models/edge.rs`: `struct Edge<Prop>`.  The
Rust fields `from` / `to` are named `src` / `dst` here (`from` is a
Lean keyword). -/
structure Edge (EP : Type) where
  src : Uuid
  dst : Uuid
  edge_type : EdgeType
  properties : EP
  deriving DecidableEq, Repr

/-- One record of the petgraph edge arena: the structural endpoints
(`NodeIndex` source and target, as stored by `Graph::add_edge`)
together with the `Edge` weight. -/
structure EdgeRec (EP : Type) where
  source : Nat
  target : Nat
  weight : Edge EP
  deriving DecidableEq, Repr

/-- `registry-provider/src/models.rs`: `enum RegistryError`.  The
`EntityIdExists` / `EntityNameExists` variants are returned by
`Registry::insert_entity` but their declaration is in a crate revision
that is not under `src/`; they are the spec's *DuplicateId* /
*DuplicateQualifiedName* errors. -/
inductive RegistryError where
  | WrongEntityType (id : Uuid) (ty : EntityType)
  | EntityNotFound (name : String)
  | InvalidEntity (id : Uuid)
  | InvalidEdge (fromTy toTy : EntityType)
  | DeleteInUsed (id : Uuid)
  | FtsError (msg : String)
  | ExternalStorageError (msg : String)
  | EntityIdExists (id : Uuid)
  | EntityNameExists (name : String)
  deriving DecidableEq, Repr

/-- Decidable equality of results, for evaluating the operations at
concrete inputs. -/
instance {E A : Type} [DecidableEq E] [DecidableEq A] : DecidableEq (Except E A) := fun x y =>
  match x, y with
  | .ok a, .ok b =>
    if h : a = b then .isTrue (by rw [h]) else .isFalse (by intro hh; cases hh; exact h rfl)
  | .ok _, .error _ => .isFalse (by intro hh; cases hh)
  | .error _, .ok _ => .isFalse (by intro hh; cases hh)
  | .error e, .error e' =>
    if h : e = e' then .isTrue (by rw [h]) else .isFalse (by intro hh; cases hh; exact h rfl)

/-- The `EntityPropMutator` / `EdgePropMutator` trait methods that
`Registry`'s operations invoke, passed as data (the Rust registry is
generic over implementations of these traits).
`connectProps from from_id to to_id edge_type` returns the two updated
entities produced by `EntityProp::connect` on copies of the endpoint
nodes; likewise `disconnectProps` for `EntityProp::disconnect`;
`reflectionProp` is `EdgeProp::reflection`. -/
structure PropOps (NP EP : Type) where
  connectProps : Entity NP → Uuid → Entity NP → Uuid → EdgeType → Entity NP × Entity NP
  disconnectProps : Entity NP → Uuid → Entity NP → Uuid → EdgeType → Entity NP × Entity NP
  reflectionProp : EP → EP

/-- State of `sql-provider/src/fts.rs` `FtsIndex`: the tantivy
`IndexWriter` is abstracted as the queue `queued` of documents added
but not yet committed; `commit` moves them to `committed` (the
documents visible to `search`).  `enabled` is the bulk-load flag set by
`enable`. -/
structure FtsIndex (D : Type) where
  queued : List D
  committed : List D
  enabled : Bool
  deriving DecidableEq, Repr

/-- `FtsIndex::new`: empty index, `enabled: true`. -/
def FtsIndex.new {D : Type} : FtsIndex D :=
  { queued := [], committed := [], enabled := true }

/-- `FtsIndex::enable(enabled)`. -/
def FtsIndex.enable {D : Type} (f : FtsIndex D) (enabled : Bool) : FtsIndex D :=
  { f with enabled := enabled }

/-- `FtsIndex::add_doc`: unconditionally queues the document on the
writer (creating the writer if absent) and returns `Ok(())`.  It does
not consult `enabled`. -/
def FtsIndex.add_doc {D : Type} (f : FtsIndex D) (d : D) :
    Except RegistryError Unit × FtsIndex D :=
  (.ok (), { f with queued := f.queued ++ [d] })

/-- `FtsIndex::commit`: flushes the queued writes, making them visible
to search, and drops the writer. -/
def FtsIndex.commit {D : Type} (f : FtsIndex D) :
    Except RegistryError Unit × FtsIndex D :=
  (.ok (), { f with queued := [], committed := f.committed ++ f.queued })

/-- `FtsIndex::index`: the single-document fast path.  Returns `Ok(())`
without any effect when the index is disabled; otherwise
`add_doc` followed by `commit`. -/
def FtsIndex.index {D : Type} (f : FtsIndex D) (d : D) :
    Except RegistryError Unit × FtsIndex D :=
  if !f.enabled then (.ok (), f)
  else
    let (_, f1) := f.add_doc d
    f1.commit

/-- `sql-provider/src/db_registry.rs`: `struct Registry`.  `nodes` and
`edges` are the petgraph arenas (`graph`); `node_id_map`,
`name_id_map`, `deleted` and `entry_points` are the secondary indices.
The `external_storage` list is empty in the replicated core, so it is
omitted. -/
structure Registry (NP EP : Type) where
  nodes : List (Entity NP)
  edges : List (EdgeRec EP)
  node_id_map : List (Uuid × Nat)
  name_id_map : List (String × Uuid)
  deleted : List Uuid
  entry_points : List Nat
  fts_index : FtsIndex (Entity NP)
  deriving DecidableEq

/-- `Registry::new`: all components empty. -/
def Registry.new {NP EP : Type} : Registry NP EP :=
  { nodes := [], edges := [], node_id_map := [], name_id_map := []
    deleted := [], entry_points := [], fts_index := FtsIndex.new }

/-- `Registry::get_idx`: tombstoned ids and ids absent from
`node_id_map` are `InvalidEntity`. -/
def Registry.get_idx {NP EP : Type} (r : Registry NP EP) (uuid : Uuid) :
    Except RegistryError Nat :=
  if uuid ∈ r.deleted then .error (.InvalidEntity uuid)
  else
    match r.node_id_map.lookup uuid with
    | some i => .ok i
    | none => .error (.InvalidEntity uuid)

/-- Overwrite the `properties` field of the node at arena index `i`
(the write-back `node_weight_mut(idx).map(|w| w.properties = ...)`);
no-op when the index is out of range, as `node_weight_mut` returns
`None` there. -/
def setProps {NP : Type} (nodes : List (Entity NP)) (i : Nat) (p : NP) :
    List (Entity NP) :=
  match nodes.get? i with
  | some e => nodes.set i { e with properties := p }
  | none => nodes

/-- `Registry::insert_node`: append the entity to the arena (petgraph
`add_node` returns index = old node count), record both secondary
indices, and register the index as an entry point when the type is an
entry-point type.  `containers` starts empty. -/
def Registry.insert_node {NP EP : Type} (r : Registry NP EP) (id : Uuid)
    (entity_type : EntityType) (name qualified_name : String) (properties : NP) :
    Nat × Registry NP EP :=
  let entity : Entity NP :=
    { id := id, entity_type := entity_type, name := name
      qualified_name := qualified_name, containers := [], properties := properties }
  let idx := r.nodes.length
  (idx,
    { r with
      nodes := r.nodes ++ [entity]
      node_id_map := (id, idx) :: r.node_id_map
      name_id_map := (qualified_name, id) :: r.name_id_map
      entry_points :=
        if entity_type.is_entry_point then r.entry_points ++ [idx] else r.entry_points })

/-- `Registry::insert_entity` (db_registry.rs lines 480-509): duplicate
id in `node_id_map` is checked first, then duplicate qualified name in
`name_id_map`; otherwise `insert_node` and index the new node in FTS. -/
def Registry.insert_entity {NP EP : Type} (r : Registry NP EP) (uuid : Uuid)
    (entity_type : EntityType) (name qualified_name : String) (properties : NP) :
    Except RegistryError Uuid × Registry NP EP :=
  if (r.node_id_map.lookup uuid).isSome then
    (.error (.EntityIdExists uuid), r)
  else if (r.name_id_map.lookup qualified_name).isSome then
    (.error (.EntityNameExists qualified_name), r)
  else
    let (idx, r1) := r.insert_node uuid entity_type name qualified_name properties
    match r1.nodes.get? idx with
    | some e => (.ok uuid, { r1 with fts_index := (r1.fts_index.index e).2 })
    | none => (.ok uuid, r1)

/-- `Registry::insert_edge`: read copies of both endpoint nodes, apply
`EntityProp::connect` to the copies, write only the `properties` back
to the arena, then `add_edge` with a weight carrying the endpoint
uuids.  The `unwrap` on the node weights is total here: with an
out-of-range index the function returns the state unchanged (the Rust
code would panic; see the module comment). -/
def Registry.insert_edge {NP EP : Type} (ops : PropOps NP EP) (r : Registry NP EP)
    (edge_type : EdgeType) (from_idx to_idx : Nat) (from_uuid to_uuid : Uuid)
    (properties : EP) : Registry NP EP :=
  match r.nodes.get? from_idx, r.nodes.get? to_idx with
  | some fe, some te =>
    let p := ops.connectProps fe from_uuid te to_uuid edge_type
    let nodes1 := setProps r.nodes from_idx p.1.properties
    let nodes2 := setProps nodes1 to_idx p.2.properties
    { r with
      nodes := nodes2
      edges := r.edges ++
        [{ source := from_idx, target := to_idx
           weight := { src := from_uuid, dst := to_uuid
                       edge_type := edge_type, properties := properties } }] }
  | _, _ => r

/-- `Registry::connect` (db_registry.rs lines 567-620): resolve both
endpoints; if no edge of this type already connects them insert the
forward edge, and if no reflection edge already connects them the
other way insert the reflection edge.  There is no validation-matrix
check in this function. -/
def Registry.connect {NP EP : Type} (ops : PropOps NP EP) (r : Registry NP EP)
    (fromU toU : Uuid) (edge_type : EdgeType) (properties : EP) :
    Except RegistryError Unit × Registry NP EP :=
  match r.get_idx fromU with
  | .error e => (.error e, r)
  | .ok from_idx =>
    match r.get_idx toU with
    | .error e => (.error e, r)
    | .ok to_idx =>
      let r1 :=
        if r.edges.any fun e =>
            e.source = from_idx ∧ e.target = to_idx ∧ e.weight.edge_type = edge_type then r
        else r.insert_edge ops edge_type from_idx to_idx fromU toU properties
      let r2 :=
        if r1.edges.any fun e =>
            e.source = to_idx ∧ e.target = from_idx ∧
              e.weight.edge_type = edge_type.reflection then r1
        else r1.insert_edge ops edge_type.reflection to_idx from_idx toU fromU
          (ops.reflectionProp properties)
      (.ok (), r2)

/-- Targets of the outgoing edges of `idx` whose weight satisfies the
predicate: `Registry::get_neighbors_idx` (petgraph `edges(idx)`
iterates the outgoing edges of a directed graph). -/
def Registry.get_neighbors_idx {NP EP : Type} (r : Registry NP EP) (idx : Nat)
    (pred : Edge EP → Bool) : List Nat :=
  (r.edges.filter fun e => e.source = idx ∧ pred e.weight).map (·.target)

/-- The incident-edge set computed by `Registry::delete_entity_by_id`:
`edges_connecting(idx, n)` and `edges_connecting(n, idx)` for every
outgoing neighbor `n` of `idx`. -/
def deleteEdgePred {EP : Type} (idx : Nat) (nbrs : List Nat) (e : EdgeRec EP) : Prop :=
  (e.source = idx ∧ e.target ∈ nbrs) ∨ (e.source ∈ nbrs ∧ e.target = idx)

instance {EP : Type} (idx : Nat) (nbrs : List Nat) (e : EdgeRec EP) :
    Decidable (deleteEdgePred idx nbrs e) := by
  unfold deleteEdgePred; infer_instance

/-- The per-edge body of the disconnect loop in
`Registry::delete_entity_by_id`: read copies of the edge's endpoint
nodes, call `EntityProp::disconnect` on the copies with their own ids,
and write only the `properties` back. -/
def disconnectStep {NP EP : Type} (ops : PropOps NP EP)
    (nodes : List (Entity NP)) (e : EdgeRec EP) : List (Entity NP) :=
  match nodes.get? e.source, nodes.get? e.target with
  | some fe, some te =>
    let p := ops.disconnectProps fe fe.id te te.id e.weight.edge_type
    setProps (setProps nodes e.source p.1.properties) e.target p.2.properties
  | _, _ => nodes

/-- `Registry::delete_entity_by_id` (db_registry.rs lines 511-565):
fail `DeleteInUsed` when any outgoing edge has a downstream type
(`Contains` or `Produces`); otherwise collect every edge between `idx`
and its outgoing neighbors in either direction, run the disconnect
loop over them, remove them (`retain_edges`), and add the uuid to the
tombstone set.  The node stays in the arena. -/
def Registry.delete_entity_by_id {NP EP : Type} (ops : PropOps NP EP)
    (r : Registry NP EP) (uuid : Uuid) :
    Except RegistryError Unit × Registry NP EP :=
  match r.get_idx uuid with
  | .error e => (.error e, r)
  | .ok idx =>
    if r.edges.any fun e => e.source = idx ∧ e.weight.edge_type.is_downstream then
      (.error (.DeleteInUsed uuid), r)
    else
      let nbrs := r.get_neighbors_idx idx fun _ => true
      let incident := r.edges.filter fun e => decide (deleteEdgePred idx nbrs e)
      let nodes2 := incident.foldl (disconnectStep ops) r.nodes
      (.ok (),
        { r with
          nodes := nodes2
          edges := r.edges.filter fun e => ¬ deleteEdgePred idx nbrs e
          deleted := uuid :: r.deleted })

/-- `Registry::get_entity_by_id`: `node_id_map` lookup, filtered by the
tombstone set, then the arena node. -/
def Registry.get_entity_by_id {NP EP : Type} (r : Registry NP EP) (uuid : Uuid) :
    Option (Entity NP) :=
  match r.node_id_map.lookup uuid with
  | some i => if uuid ∈ r.deleted then none else r.nodes.get? i
  | none => none

/-- `Registry::get_entity_by_name`: resolve the qualified name through
`name_id_map`, then `get_entity_by_id`. -/
def Registry.get_entity_by_name {NP EP : Type} (r : Registry NP EP)
    (qualified_name : String) : Option (Entity NP) :=
  match r.name_id_map.lookup qualified_name with
  | some id => r.get_entity_by_id id
  | none => none

/-- The candidate edges considered from the current node in one BFS
round of `Registry::bfs_traversal`: outgoing edges of `cur` whose
weight passes `edge_pred` and whose target node passes `entity_pred`,
tagged with their `EdgeIndex`.  (petgraph iterates the outgoing edges
of a node most-recent-first; the embedding uses arena order — the
properties proved below do not depend on the iteration order.) -/
def bfsNextEdges {NP EP : Type} (r : Registry NP EP) (cur : Nat)
    (entity_pred : Entity NP → Bool) (edge_pred : Edge EP → Bool) :
    List (Nat × EdgeRec EP) :=
  r.edges.enum.filter fun p =>
    decide (p.2.source = cur) && edge_pred p.2.weight &&
      (match r.nodes.get? p.2.target with
       | some w => entity_pred w
       | none => false)

/-- The inner `for edge in next_edges.take(...)` loop: push the edge
index if unseen, then push the target node index if unseen. -/
def bfsPush {EP : Type} (st : List Nat × List Nat) (p : Nat × EdgeRec EP) :
    List Nat × List Nat :=
  let edgesAcc := if p.1 ∈ st.2 then st.2 else st.2 ++ [p.1]
  let entities := if p.2.target ∈ st.1 then st.1 else st.1 ++ [p.2.target]
  (entities, edgesAcc)

/-- The `while entities.len() < size_limit && offset < entities.len()`
loop of `Registry::bfs_traversal`, carrying the discovered node
indices, the traversed edge indices, and the read offset. -/
def bfsLoop {NP EP : Type} (r : Registry NP EP) (entity_pred : Entity NP → Bool)
    (edge_pred : Edge EP → Bool) (size_limit : Nat)
    (entities edgesAcc : List Nat) (offset : Nat) : List Nat × List Nat :=
  if h : entities.length < size_limit ∧ offset < entities.length then
    let cur := entities.getD offset 0
    let next := (bfsNextEdges r cur entity_pred edge_pred).take
      (size_limit - entities.length)
    let st := next.foldl bfsPush (entities, edgesAcc)
    bfsLoop r entity_pred edge_pred size_limit st.1 st.2 (offset + 1)
  else (entities, edgesAcc)
termination_by size_limit - offset
decreasing_by
  have : offset < size_limit := lt_trans h.2 h.1
  omega

/-- Fuelled twin of `bfsLoop`, used to evaluate the loop at concrete
inputs (the well-founded `bfsLoop` does not reduce in the kernel).  A
fuel of `size_limit - offset` suffices: the loop condition forces
`offset < size_limit` and `offset` increases by one per iteration, so
`bfsLoop_eq_fuel` below shows the two agree. -/
def bfsLoopFuel {NP EP : Type} (r : Registry NP EP) (entity_pred : Entity NP → Bool)
    (edge_pred : Edge EP → Bool) (size_limit : Nat) :
    Nat → List Nat → List Nat → Nat → List Nat × List Nat
  | 0, entities, edgesAcc, _ => (entities, edgesAcc)
  | fuel + 1, entities, edgesAcc, offset =>
    if entities.length < size_limit ∧ offset < entities.length then
      let cur := entities.getD offset 0
      let next := (bfsNextEdges r cur entity_pred edge_pred).take
        (size_limit - entities.length)
      let st := next.foldl bfsPush (entities, edgesAcc)
      bfsLoopFuel r entity_pred edge_pred size_limit fuel st.1 st.2 (offset + 1)
    else (entities, edgesAcc)

/-- `Registry::bfs_traversal` (db_registry.rs lines 399-447): resolve
the start id, run the BFS loop from `[start]`, and map the collected
node and edge indices back to entities and edge weights. -/
def Registry.bfs_traversal {NP EP : Type} (r : Registry NP EP) (uuid : Uuid)
    (size_limit : Nat) (entity_pred : Entity NP → Bool) (edge_pred : Edge EP → Bool) :
    Except RegistryError (List (Entity NP) × List (Edge EP)) :=
  match r.get_idx uuid with
  | .error e => .error e
  | .ok idx =>
    let st := bfsLoop r entity_pred edge_pred size_limit [idx] [] 0
    .ok (st.1.filterMap fun i => r.nodes.get? i,
         st.2.filterMap fun i => (r.edges.get? i).map (·.weight))

/-- `RegistryProvider::bfs for Registry` (sql-provider/src/lib.rs lines
125-132): every entity passes, edges are filtered to the requested
edge type. -/
def Registry.bfs {NP EP : Type} (r : Registry NP EP) (uuid : Uuid)
    (edge_type : EdgeType) (size_limit : Nat) :
    Except RegistryError (List (Entity NP) × List (Edge EP)) :=
  r.bfs_traversal uuid size_limit (fun _ => true) (fun e => e.edge_type = edge_type)

/-- The primitive mutating operations of the graph registry.  The
higher-level creation operations (`new_project` … `new_derived_feature`
in sql-provider/src/lib.rs) are sequences of one `insert_entity`
followed by `connect` calls, so closure of an invariant under these
three constructors covers them. -/
inductive RegOp (NP EP : Type) where
  | insert (uuid : Uuid) (entity_type : EntityType) (name qualified_name : String)
      (properties : NP)
  | connect (fromU toU : Uuid) (edge_type : EdgeType) (properties : EP)
  | delete (uuid : Uuid)

/-- Apply one primitive operation, keeping the post-state (on error the
state is unchanged). -/
def applyOp {NP EP : Type} (ops : PropOps NP EP) (r : Registry NP EP) :
    RegOp NP EP → Registry NP EP
  | .insert uuid ty name qname props => (r.insert_entity uuid ty name qname props).2
  | .connect f t et props => (Registry.connect ops r f t et props).2
  | .delete uuid => (Registry.delete_entity_by_id ops r uuid).2

/-- Run a sequence of primitive operations from a state. -/
def applyOps {NP EP : Type} (ops : PropOps NP EP) (r : Registry NP EP)
    (prog : List (RegOp NP EP)) : Registry NP EP :=
  prog.foldl (applyOp ops) r

/-- Outcome of `Raft::is_leader()` as observed by
`RaftRegistryApp::request`: `Ok`, `Err(CheckIsLeaderError::ForwardToLeader)`,
or any other error. -/
inductive LeaderCheck where
  | leader
  | notLeader
  | checkFailed
  deriving DecidableEq, Repr

/-- What `RaftRegistryApp::request` does with a request after its
routing decision. -/
inductive RouteAction where
  | forward
  | submitToRaft
  | rejectWrite
  | handleLocalRead
  deriving DecidableEq, Repr

/-- The routing decision of `RaftRegistryApp::request`
(raft-registry/src/app.rs lines 110-178).  `optSeq` is the `opt_seq`
barrier, `lastApplied` the local `last_applied_log` index, `isWriting`
the value of `req.is_writing_request()` (the predicate itself is
declared in a crate revision outside `src/`; per the spec, writing
requests are exactly the mutating `Create*` variants).  Note that on a
non-leader with a barrier the request is forwarded whenever the local
applied index is absent or below the barrier; `rejectWrite` (the
`BadRequest` "Updating requests must be submitted to the Raft leader")
is only reached when the local index has caught up. -/
def routeRequest (lc : LeaderCheck) (optSeq : Option Nat)
    (lastApplied : Option Nat) (isWriting : Bool) : RouteAction :=
  let is_leader : Bool := lc ≠ LeaderCheck.notLeader
  let should_forward : Bool :=
    match lc with
    | .leader => false
    | .checkFailed => false
    | .notLeader =>
      match optSeq with
      | none => true
      | some seq =>
        match lastApplied with
        | none => true
        | some l => l < seq
  if should_forward then .forward
  else if isWriting then
    if is_leader then .submitToRaft else .rejectWrite
  else .handleLocalRead

/-- `registry-provider/src/models/attributes.rs`: `struct EntityRef`.
`unique_attributes` is a `HashMap<String, String>`, modelled as an
association list. -/
structure EntityRef where
  guid : Uuid
  type_name : String
  unique_attributes : List (String × String)
  deriving DecidableEq, Repr

/-- `attributes.rs`: `struct ProjectAttributes`.  The `HashSet<EntityRef>`
back-reference sets and the tags map are modelled as lists. -/
structure ProjectAttributes where
  qualified_name : String
  name : String
  anchors : List EntityRef
  sources : List EntityRef
  anchor_features : List EntityRef
  derived_features : List EntityRef
  tags : List (String × String)
  deriving DecidableEq, Repr

/-- `attributes.rs`: `struct SourceAttributes`. -/
structure SourceAttributes where
  qualified_name : String
  name : String
  path : String
  preprocessing : Option String
  event_timestamp_column : Option String
  timestamp_format : Option String
  type_ : String
  tags : List (String × String)
  deriving DecidableEq, Repr

/-- `attributes.rs`: `struct AnchorAttributes`. -/
structure AnchorAttributes where
  qualified_name : String
  name : String
  features : List EntityRef
  source : Option EntityRef
  tags : List (String × String)
  deriving DecidableEq, Repr

/-- `attributes.rs`: `enum FeatureTransformation` (the `WindowAgg`
fields are kept; `Aggregation` is its name string). -/
inductive FeatureTransformation where
  | Expression (transform_expr : String)
  | WindowAgg (def_expr : String) (agg_func : Option String) (window : Option String)
      (group_by : Option String) (filter : Option String) (limit : Option Nat)
  | Udf (name : String)
  deriving DecidableEq, Repr

/-- `attributes.rs`: `struct FeatureType` (`ValueType`, `VectorType`
and `TensorCategory` are carried as their name strings). -/
structure FeatureType where
  type_ : String
  tensor_category : String
  dimension_type : List String
  val_type : String
  deriving DecidableEq, Repr

/-- `attributes.rs`: `struct TypedKey`. -/
structure TypedKey where
  key_column : String
  key_column_type : String
  full_name : Option String
  description : Option String
  key_column_alias : Option String
  deriving DecidableEq, Repr

/-- `attributes.rs`: `struct AnchorFeatureAttributes`. -/
structure AnchorFeatureAttributes where
  qualified_name : String
  name : String
  type_ : FeatureType
  transformation : FeatureTransformation
  key : List TypedKey
  tags : List (String × String)
  deriving DecidableEq, Repr

/-- `attributes.rs`: `struct DerivedFeatureAttributes`. -/
structure DerivedFeatureAttributes where
  qualified_name : String
  name : String
  type_ : FeatureType
  transformation : FeatureTransformation
  key : List TypedKey
  input_anchor_features : List EntityRef
  input_derived_features : List EntityRef
  tags : List (String × String)
  deriving DecidableEq, Repr

/-- `attributes.rs`: `enum Attributes`. -/
inductive Attributes where
  | AnchorFeature (a : AnchorFeatureAttributes)
  | DerivedFeature (a : DerivedFeatureAttributes)
  | Anchor (a : AnchorAttributes)
  | Source (a : SourceAttributes)
  | Project (a : ProjectAttributes)
  deriving DecidableEq, Repr

/-- `entity_prop.rs`: `enum EntityStatus` (only `Active`). -/
inductive EntityStatus where
  | Active
  deriving DecidableEq, Repr

/-- `registry-provider/src/models/entity_prop.rs`: `struct
EntityProperty`.  `last_modified_ts` is the `lastModifiedTS` string. -/
structure EntityProperty where
  guid : Uuid
  last_modified_ts : String
  status : EntityStatus
  display_text : String
  labels : List String
  attributes : Attributes
  deriving DecidableEq, Repr

/-- `ProjectDef` as consumed by `EntityProperty::new_project`
(`definition.id`, `definition.qualified_name`, `definition.tags`).  The
revision of `entity_def.rs` declaring the `id` field is not under
`src/`; per the spec the `id` of a created entity is pre-assigned by
the originating node and carried in the request payload. -/
structure ProjectDef where
  id : Uuid
  qualified_name : String
  tags : List (String × String)
  deriving DecidableEq, Repr

/-- `EntityProperty::new_project` (entity_prop.rs lines 41-58).  The
Rust code computes `last_modified_ts` from
`chrono::Utc::now().timestamp().to_string()` — a read of the wall
clock at *apply* time, made explicit here as the argument `now`
(seconds since the epoch).  Everything else is a function of the
definition.  The other four constructors (`new_source` …
`new_derived_feature`, lines 59-151) read the clock the same way. -/
def EntityProperty.newProject (definition : ProjectDef) (now : Int) : EntityProperty :=
  { guid := definition.id
    last_modified_ts := toString now
    status := .Active
    display_text := definition.qualified_name
    labels := []
    attributes := .Project
      { qualified_name := definition.qualified_name
        name := definition.qualified_name
        anchors := []
        sources := []
        anchor_features := []
        derived_features := []
        tags := definition.tags } }

/-- `RegistryProvider::new_project for Registry` (sql-provider/src/lib.rs
lines 173-187), as dispatched by `RegistryOperator::apply` for the
`NewProject` log entry: build the property with
`EntityProperty::new_project` (reading the clock `now`), then
`insert_entity` under the pre-assigned `definition.id` with the
qualified name as both name and qualified name. -/
def Registry.new_project {EP : Type} (r : Registry EntityProperty EP)
    (definition : ProjectDef) (now : Int) :
    Except RegistryError Uuid × Registry EntityProperty EP :=
  r.insert_entity definition.id .Project definition.qualified_name
    definition.qualified_name (EntityProperty.newProject definition now)

/-- Trait dictionary of the `DummyEntityProp` / `DummyEdgeProp` test
implementations (db_registry.rs tests): `connect` / `disconnect` do not
modify the entities and `reflection` is the identity. -/
def unitOps : PropOps Unit Unit :=
  { connectProps := fun f _ t _ _ => (f, t)
    disconnectProps := fun f _ t _ _ => (f, t)
    reflectionProp := id }

/-- A registry holding one project (id 1). -/
def rP : Registry Unit Unit :=
  (Registry.new.insert_entity 1 .Project "project1" "project1" ()).2

/-- `rP` plus one source (id 2). -/
def rPS : Registry Unit Unit :=
  (rP.insert_entity 2 .Source "source1" "project1__source1" ()).2

/-- `rPS` after `connect(project, source, Contains)`: holds the Contains
edge and its BelongsTo reflection. -/
def rPSc : Registry Unit Unit :=
  (Registry.connect unitOps rPS 1 2 .Contains ()).2

/-- `rP` after deleting the project: the arena still holds the node,
both indices still hold their entries, and id 1 is tombstoned. -/
def rDel : Registry Unit Unit :=
  (Registry.delete_entity_by_id unitOps rP 1).2

/-- The entity list returned by the C7 witness run. -/
def c7WitnessEntities : List (Entity Unit) :=
  [{ id := 1, entity_type := .Project, name := "project1",
     qualified_name := "project1", containers := [], properties := () },
   { id := 2, entity_type := .Source, name := "source1",
     qualified_name := "project1__source1", containers := [], properties := () }]

/-- The edge list returned by the C7 witness run. -/
def c7WitnessEdges : List (Edge Unit) :=
  [{ src := 1, dst := 2, edge_type := .Contains, properties := () }]

/-- An id is live when it is indexed and not tombstoned (the condition
under which `get_idx` succeeds). -/
def Registry.isLiveId {NP EP : Type} (r : Registry NP EP) (uuid : Uuid) : Prop :=
  (r.node_id_map.lookup uuid).isSome ∧ uuid ∉ r.deleted

instance {NP EP : Type} (r : Registry NP EP) (uuid : Uuid) :
    Decidable (r.isLiveId uuid) := by
  unfold Registry.isLiveId; infer_instance

/-- The arena node at index `i` exists and carries id `u`. -/
def nodeAtIsId {NP : Type} (nodes : List (Entity NP)) (i : Nat) (u : Uuid) : Prop :=
  ∃ ent, nodes.get? i = some ent ∧ ent.id = u

instance {NP : Type} (nodes : List (Entity NP)) (i : Nat) (u : Uuid) :
    Decidable (nodeAtIsId nodes i u) :=
  match h : nodes.get? i with
  | some ent =>
    if he : ent.id = u then .isTrue ⟨ent, h, he⟩
    else .isFalse (by
      rintro ⟨e', h', he'⟩
      rw [h] at h'
      cases h'
      exact he he')
  | none => .isFalse (by
      rintro ⟨e', h', _⟩
      rw [h] at h'
      cases h')

/-- Every entry of `node_id_map` points at an arena slot holding an
entity with that id.  Holds in every reachable state: `insert_node` is
the only writer of the map and records the index it appended at. -/
def MapConsistent {NP EP : Type} (r : Registry NP EP) : Prop :=
  ∀ p ∈ r.node_id_map, nodeAtIsId r.nodes p.2 p.1

instance {NP EP : Type} (r : Registry NP EP) : Decidable (MapConsistent r) := by
  unfold MapConsistent; infer_instance

/-- Every edge weight names exactly the ids of the arena nodes at its
structural endpoints. -/
def EdgeWeightsConsistent {NP EP : Type} (r : Registry NP EP) : Prop :=
  ∀ e ∈ r.edges,
    nodeAtIsId r.nodes e.source e.weight.src ∧ nodeAtIsId r.nodes e.target e.weight.dst

instance {NP EP : Type} (r : Registry NP EP) : Decidable (EdgeWeightsConsistent r) := by
  unfold EdgeWeightsConsistent; infer_instance

/-- The paired reflection edge of `e` is present: same endpoints
swapped, both structurally and in the weight, with the reflected edge
type (spec invariant I3 / property P2). -/
def EdgeReflIn {EP : Type} (edges : List (EdgeRec EP)) (e : EdgeRec EP) : Prop :=
  ∃ e' ∈ edges,
    e'.source = e.target ∧ e'.target = e.source ∧
    e'.weight.src = e.weight.dst ∧ e'.weight.dst = e.weight.src ∧
    e'.weight.edge_type = e.weight.edge_type.reflection

instance {EP : Type} (edges : List (EdgeRec EP)) (e : EdgeRec EP) :
    Decidable (EdgeReflIn edges e) := by
  unfold EdgeReflIn; infer_instance

/-- Every edge of the graph has its paired reflection edge. -/
def ReflexiveEdges {NP EP : Type} (r : Registry NP EP) : Prop :=
  ∀ e ∈ r.edges, EdgeReflIn r.edges e

instance {NP EP : Type} (r : Registry NP EP) : Decidable (ReflexiveEdges r) := by
  unfold ReflexiveEdges; infer_instance

/-- The target of edge `e` is a live (non-tombstoned) entity. -/
def EdgeTargetLive {NP EP : Type} (r : Registry NP EP) (e : EdgeRec EP) : Prop :=
  ∃ te, r.nodes.get? e.target = some te ∧ te.id ∉ r.deleted

instance {NP EP : Type} (r : Registry NP EP) (e : EdgeRec EP) :
    Decidable (EdgeTargetLive r e) := by
  unfold EdgeTargetLive; infer_instance

/-- Every edge points at a live target entity (no edge survives the
deletion of an endpoint). -/
def EdgesLive {NP EP : Type} (r : Registry NP EP) : Prop :=
  ∀ e ∈ r.edges, EdgeTargetLive r e

instance {NP EP : Type} (r : Registry NP EP) : Decidable (EdgesLive r) := by
  unfold EdgesLive; infer_instance

/-- The combined reachable-state invariant: index consistency, edge
weight consistency, and the reflexive-edge pairing. -/
def Inv {NP EP : Type} (r : Registry NP EP) : Prop :=
  MapConsistent r ∧ EdgeWeightsConsistent r ∧ ReflexiveEdges r

/-! ## Structural lemmas about the embedded operations -/

theorem setProps_id {NP : Type} (nodes : List (Entity NP)) (i : Nat) (p : NP) (j : Nat) :
    ((setProps nodes i p).get? j).map (·.id) = (nodes.get? j).map (·.id) := by
  unfold setProps
  cases h : nodes.get? i with
  | none => rfl
  | some e =>
    rw [List.get?_set]
    by_cases hij : i = j
    · subst hij
      rw [if_pos rfl, h]
      rfl
    · rw [if_neg hij]

theorem setProps_length {NP : Type} (nodes : List (Entity NP)) (i : Nat) (p : NP) :
    (setProps nodes i p).length = nodes.length := by
  unfold setProps
  cases h : nodes.get? i with
  | none => rfl
  | some e => exact List.length_set nodes i _

theorem nodeAtIsId_congr {NP : Type} {l1 l2 : List (Entity NP)}
    (h : ∀ j, (l1.get? j).map (·.id) = (l2.get? j).map (·.id)) (j : Nat) (u : Uuid) :
    nodeAtIsId l1 j u ↔ nodeAtIsId l2 j u := by
  unfold nodeAtIsId
  constructor
  · rintro ⟨e, he, hid⟩
    have h' := h j
    rw [he] at h'
    cases h2 : l2.get? j with
    | none => rw [h2] at h'; simp at h'
    | some e2 =>
      rw [h2] at h'
      simp only [Option.map_some'] at h'
      have heq : e.id = e2.id := Option.some.inj h'
      exact ⟨e2, rfl, heq ▸ hid⟩
  · rintro ⟨e, he, hid⟩
    have h' := h j
    rw [he] at h'
    cases h2 : l1.get? j with
    | none => rw [h2] at h'; simp at h'
    | some e2 =>
      rw [h2] at h'
      simp only [Option.map_some'] at h'
      have heq : e2.id = e.id := Option.some.inj h'
      exact ⟨e2, rfl, heq.trans hid⟩

theorem setProps_isSome {NP : Type} (nodes : List (Entity NP)) (i : Nat) (p : NP) (j : Nat) :
    ((setProps nodes i p).get? j).isSome = ((nodes.get? j)).isSome := by
  have h := congrArg Option.isSome (setProps_id nodes i p j)
  simpa using h

theorem setProps_nodeAtIsId {NP : Type} (nodes : List (Entity NP)) (i : Nat) (p : NP)
    (j : Nat) (u : Uuid) : nodeAtIsId (setProps nodes i p) j u ↔ nodeAtIsId nodes j u :=
  nodeAtIsId_congr (setProps_id nodes i p) j u

theorem disconnectStep_id {NP EP : Type} (ops : PropOps NP EP)
    (nodes : List (Entity NP)) (e : EdgeRec EP) (j : Nat) :
    ((disconnectStep ops nodes e).get? j).map (·.id) = (nodes.get? j).map (·.id) := by
  unfold disconnectStep
  cases h1 : nodes.get? e.source with
  | none => rfl
  | some fe =>
    cases h2 : nodes.get? e.target with
    | none => rfl
    | some te =>
      simp only
      rw [setProps_id, setProps_id]

theorem disconnectFold_id {NP EP : Type} (ops : PropOps NP EP)
    (l : List (EdgeRec EP)) (nodes : List (Entity NP)) (j : Nat) :
    ((l.foldl (disconnectStep ops) nodes).get? j).map (·.id) =
      (nodes.get? j).map (·.id) := by
  induction l generalizing nodes with
  | nil => rfl
  | cons e es ih => rw [List.foldl_cons, ih, disconnectStep_id]

theorem map_id_of_get?_id {NP : Type} (l1 l2 : List (Entity NP))
    (h : ∀ j, (l1.get? j).map (·.id) = (l2.get? j).map (·.id)) :
    l1.map (·.id) = l2.map (·.id) := by
  apply List.ext_get?
  intro n
  rw [List.get?_map, List.get?_map]
  exact h n

/-- `insert_edge` never touches the secondary indices, the tombstone
set, the entry points or the FTS index. -/
theorem insert_edge_components {NP EP : Type} (ops : PropOps NP EP) (r : Registry NP EP)
    (et : EdgeType) (fi ti : Nat) (fu tu : Uuid) (p : EP) :
    (r.insert_edge ops et fi ti fu tu p).node_id_map = r.node_id_map ∧
    (r.insert_edge ops et fi ti fu tu p).name_id_map = r.name_id_map ∧
    (r.insert_edge ops et fi ti fu tu p).deleted = r.deleted ∧
    (r.insert_edge ops et fi ti fu tu p).entry_points = r.entry_points ∧
    (r.insert_edge ops et fi ti fu tu p).fts_index = r.fts_index := by
  unfold Registry.insert_edge
  cases h1 : r.nodes.get? fi <;> cases h2 : r.nodes.get? ti <;> simp

/-- `insert_edge` only appends to the edge arena. -/
theorem insert_edge_edges_append {NP EP : Type} (ops : PropOps NP EP) (r : Registry NP EP)
    (et : EdgeType) (fi ti : Nat) (fu tu : Uuid) (p : EP) :
    ∃ l, (r.insert_edge ops et fi ti fu tu p).edges = r.edges ++ l := by
  unfold Registry.insert_edge
  cases h1 : r.nodes.get? fi <;> cases h2 : r.nodes.get? ti
  · exact ⟨[], by simp⟩
  · exact ⟨[], by simp⟩
  · exact ⟨[], by simp⟩
  · exact ⟨_, rfl⟩

/-- When both endpoints are valid arena slots, `insert_edge` appends
exactly the new edge record. -/
theorem insert_edge_edges_valid {NP EP : Type} (ops : PropOps NP EP) (r : Registry NP EP)
    (et : EdgeType) (fi ti : Nat) (fu tu : Uuid) (p : EP)
    (h1 : (r.nodes.get? fi).isSome) (h2 : (r.nodes.get? ti).isSome) :
    (r.insert_edge ops et fi ti fu tu p).edges =
      r.edges ++ [{ source := fi, target := ti
                    weight := { src := fu, dst := tu, edge_type := et, properties := p } }] := by
  unfold Registry.insert_edge
  cases hf : r.nodes.get? fi with
  | none => rw [hf] at h1; cases h1
  | some fe =>
    cases ht : r.nodes.get? ti with
    | none => rw [ht] at h2; cases h2
    | some te => rfl

/-- When an endpoint slot is missing, `insert_edge` is the identity
(the Rust code would panic; unreachable from the public operations). -/
theorem insert_edge_invalid {NP EP : Type} (ops : PropOps NP EP) (r : Registry NP EP)
    (et : EdgeType) (fi ti : Nat) (fu tu : Uuid) (p : EP)
    (h : ¬((r.nodes.get? fi).isSome ∧ (r.nodes.get? ti).isSome)) :
    r.insert_edge ops et fi ti fu tu p = r := by
  unfold Registry.insert_edge
  cases hf : r.nodes.get? fi with
  | none => rfl
  | some fe =>
    cases ht : r.nodes.get? ti with
    | none => rfl
    | some te => exact absurd ⟨by rw [hf]; rfl, by rw [ht]; rfl⟩ h

theorem insert_edge_nodes_id {NP EP : Type} (ops : PropOps NP EP) (r : Registry NP EP)
    (et : EdgeType) (fi ti : Nat) (fu tu : Uuid) (p : EP) (j : Nat) :
    ((r.insert_edge ops et fi ti fu tu p).nodes.get? j).map (·.id) =
      (r.nodes.get? j).map (·.id) := by
  unfold Registry.insert_edge
  cases hf : r.nodes.get? fi with
  | none => rfl
  | some fe =>
    cases ht : r.nodes.get? ti with
    | none => rfl
    | some te => simp only; rw [setProps_id, setProps_id]

/-- `insert_entity` never touches the edge arena or the tombstone set,
in success and failure alike. -/
theorem insert_entity_edges_deleted {NP EP : Type} (r : Registry NP EP) (uuid : Uuid)
    (ty : EntityType) (name qname : String) (props : NP) :
    (r.insert_entity uuid ty name qname props).2.edges = r.edges ∧
    (r.insert_entity uuid ty name qname props).2.deleted = r.deleted := by
  unfold Registry.insert_entity Registry.insert_node
  by_cases h1 : (r.node_id_map.lookup uuid).isSome
  · simp [h1]
  · by_cases h2 : (r.name_id_map.lookup qname).isSome
    · simp [h1, h2]
    · simp only [h1, h2]
      simp

/-- On failure `insert_entity` leaves the registry unchanged. -/
theorem insert_entity_err {NP EP : Type} (r : Registry NP EP) (uuid : Uuid)
    (ty : EntityType) (name qname : String) (props : NP) (e : RegistryError)
    (h : (r.insert_entity uuid ty name qname props).1 = .error e) :
    (r.insert_entity uuid ty name qname props).2 = r := by
  unfold Registry.insert_entity at *
  by_cases h1 : (r.node_id_map.lookup uuid).isSome
  · simp [h1]
  · by_cases h2 : (r.name_id_map.lookup qname).isSome
    · simp [h1, h2]
    · exfalso
      simp only [h1, h2] at h
      unfold Registry.insert_node at h
      simp at h

/-- The success case of `insert_entity`: the result and every state
component, spelled out. -/
theorem insert_entity_success {NP EP : Type} (r : Registry NP EP) (uuid : Uuid)
    (ty : EntityType) (name qname : String) (props : NP)
    (h1 : (r.node_id_map.lookup uuid).isSome = false)
    (h2 : (r.name_id_map.lookup qname).isSome = false) :
    (r.insert_entity uuid ty name qname props).1 = .ok uuid ∧
    (r.insert_entity uuid ty name qname props).2.nodes =
      r.nodes ++ [{ id := uuid, entity_type := ty, name := name
                    qualified_name := qname, containers := [], properties := props }] ∧
    (r.insert_entity uuid ty name qname props).2.node_id_map =
      (uuid, r.nodes.length) :: r.node_id_map ∧
    (r.insert_entity uuid ty name qname props).2.name_id_map =
      (qname, uuid) :: r.name_id_map ∧
    (r.insert_entity uuid ty name qname props).2.entry_points =
      (if ty.is_entry_point then r.entry_points ++ [r.nodes.length]
       else r.entry_points) := by
  unfold Registry.insert_entity Registry.insert_node
  simp only [h1, h2, Bool.false_eq_true, if_false]
  simp only [List.get?_concat_length]
  simp

/-- `connect` never touches the node-id map, the name map, the
tombstone set, the entry points or the FTS index. -/
theorem connect_components {NP EP : Type} (ops : PropOps NP EP) (r : Registry NP EP)
    (fromU toU : Uuid) (et : EdgeType) (p : EP) :
    (Registry.connect ops r fromU toU et p).2.node_id_map = r.node_id_map ∧
    (Registry.connect ops r fromU toU et p).2.name_id_map = r.name_id_map ∧
    (Registry.connect ops r fromU toU et p).2.deleted = r.deleted ∧
    (Registry.connect ops r fromU toU et p).2.entry_points = r.entry_points ∧
    (Registry.connect ops r fromU toU et p).2.fts_index = r.fts_index := by
  unfold Registry.connect
  cases hf : r.get_idx fromU with
  | error e => simp
  | ok fi =>
    cases ht : r.get_idx toU with
    | error e => simp
    | ok ti =>
      simp only
      split
      · split
        · exact ⟨rfl, rfl, rfl, rfl, rfl⟩
        · exact insert_edge_components ..
      · split
        · exact insert_edge_components ..
        · have ha := insert_edge_components ops r et fi ti fromU toU p
          have hb := insert_edge_components ops (r.insert_edge ops et fi ti fromU toU p)
            et.reflection ti fi toU fromU (ops.reflectionProp p)
          exact ⟨hb.1.trans ha.1, hb.2.1.trans ha.2.1, hb.2.2.1.trans ha.2.2.1,
            hb.2.2.2.1.trans ha.2.2.2.1, hb.2.2.2.2.trans ha.2.2.2.2⟩

/-- `connect` only appends to the edge arena. -/
theorem connect_edges_append {NP EP : Type} (ops : PropOps NP EP) (r : Registry NP EP)
    (fromU toU : Uuid) (et : EdgeType) (p : EP) :
    ∃ l, (Registry.connect ops r fromU toU et p).2.edges = r.edges ++ l := by
  unfold Registry.connect
  cases hf : r.get_idx fromU with
  | error e => exact ⟨[], by simp⟩
  | ok fi =>
    cases ht : r.get_idx toU with
    | error e => exact ⟨[], by simp⟩
    | ok ti =>
      simp only
      split
      · split
        · exact ⟨[], by simp⟩
        · exact insert_edge_edges_append ..
      · split
        · exact insert_edge_edges_append ..
        · obtain ⟨l1, hl1⟩ := insert_edge_edges_append ops r et fi ti fromU toU p
          obtain ⟨l2, hl2⟩ := insert_edge_edges_append ops
            (r.insert_edge ops et fi ti fromU toU p) et.reflection ti fi toU fromU
            (ops.reflectionProp p)
          exact ⟨l1 ++ l2, by rw [hl2, hl1, List.append_assoc]⟩

/-- `get_idx` only reads the tombstone set and the node-id map. -/
theorem get_idx_congr {NP EP NP' EP' : Type} (r : Registry NP EP) (r' : Registry NP' EP')
    (hm : r'.node_id_map = r.node_id_map) (hd : r'.deleted = r.deleted) (u : Uuid) :
    r'.get_idx u = r.get_idx u := by
  unfold Registry.get_idx
  rw [hm, hd]

theorem bfsLoop_zero {NP EP : Type} (r : Registry NP EP) (ep : Entity NP → Bool)
    (fp : Edge EP → Bool) (entities edgesAcc : List Nat) (offset : Nat) :
    bfsLoop r ep fp 0 entities edgesAcc offset = (entities, edgesAcc) := by
  rw [bfsLoop]
  simp

theorem lookup_mem {K V : Type} [BEq K] [LawfulBEq K] (l : List (K × V)) (a : K) (b : V)
    (h : l.lookup a = some b) : (a, b) ∈ l := by
  induction l with
  | nil => cases h
  | cons p rest ih =>
    rw [List.lookup_cons] at h
    by_cases hk : a = p.1
    · have hbeq : (a == p.1) = true := beq_iff_eq.mpr hk
      simp only [hbeq] at h
      have hb : b = p.2 := (Option.some.inj h).symm
      have hp : (a, b) = p := by rw [hk, hb]
      rw [hp]
      exact List.mem_cons_self p rest
    · have hbeq : (a == p.1) = false := beq_eq_false_iff_ne.mpr hk
      simp only [hbeq] at h
      exact List.mem_cons_of_mem p (ih h)

theorem nodeAtIsId_unique {NP : Type} {l : List (Entity NP)} {i : Nat} {u v : Uuid}
    (hu : nodeAtIsId l i u) (hv : nodeAtIsId l i v) : u = v := by
  obtain ⟨e, he, heid⟩ := hu
  obtain ⟨e', he', heid'⟩ := hv
  rw [he] at he'
  cases Option.some.inj he'
  rw [← heid, ← heid']

theorem nodeAtIsId_append {NP : Type} {l : List (Entity NP)} (l2 : List (Entity NP))
    {i : Nat} {u : Uuid} (h : nodeAtIsId l i u) : nodeAtIsId (l ++ l2) i u := by
  obtain ⟨e, he, heid⟩ := h
  refine ⟨e, ?_, heid⟩
  have hlt : i < l.length := (List.get?_eq_some.mp he).1
  rw [List.get?_append hlt]
  exact he

theorem EdgeType.reflection_reflection (t : EdgeType) : t.reflection.reflection = t := by
  cases t <;> rfl

/-- `get_idx` success exposes its `node_id_map` lookup. -/
theorem get_idx_lookup {NP EP : Type} {r : Registry NP EP} {u : Uuid} {i : Nat}
    (h : r.get_idx u = .ok i) : r.node_id_map.lookup u = some i ∧ u ∉ r.deleted := by
  unfold Registry.get_idx at h
  by_cases hd : u ∈ r.deleted
  · rw [if_pos hd] at h; cases h
  · rw [if_neg hd] at h
    cases hl : r.node_id_map.lookup u with
    | none => rw [hl] at h; cases h
    | some j =>
      rw [hl] at h
      cases Except.ok.inj h
      exact ⟨rfl, hd⟩

theorem inv_insert {NP EP : Type} (r : Registry NP EP) (uuid : Uuid) (ty : EntityType)
    (name qname : String) (props : NP) (h : Inv r) :
    Inv (r.insert_entity uuid ty name qname props).2 := by
  obtain ⟨hMC, hEWC, hRefl⟩ := h
  by_cases h1 : (r.node_id_map.lookup uuid).isSome = true
  · have he : r.insert_entity uuid ty name qname props = (.error (.EntityIdExists uuid), r) := by
      unfold Registry.insert_entity
      rw [if_pos h1]
    rw [he]
    exact ⟨hMC, hEWC, hRefl⟩
  · have h1' : (r.node_id_map.lookup uuid).isSome = false := by
      cases hx : (r.node_id_map.lookup uuid).isSome
      · rfl
      · exact absurd hx h1
    by_cases h2 : (r.name_id_map.lookup qname).isSome = true
    · have he : r.insert_entity uuid ty name qname props =
          (.error (.EntityNameExists qname), r) := by
        unfold Registry.insert_entity
        rw [if_neg (by rw [h1']; decide), if_pos h2]
      rw [he]
      exact ⟨hMC, hEWC, hRefl⟩
    · have h2' : (r.name_id_map.lookup qname).isSome = false := by
        cases hx : (r.name_id_map.lookup qname).isSome
        · rfl
        · exact absurd hx h2
      have hs := insert_entity_success r uuid ty name qname props h1' h2'
      have hed := insert_entity_edges_deleted r uuid ty name qname props
      refine ⟨?_, ?_, ?_⟩
      · intro p hp
        rw [hs.2.2.1] at hp
        rw [hs.2.1]
        rcases List.mem_cons.mp hp with hp | hp
        · subst hp
          exact ⟨_, List.get?_concat_length .., rfl⟩
        · exact nodeAtIsId_append _ (hMC p hp)
      · intro e he
        rw [hed.1] at he
        rw [hs.2.1]
        exact ⟨nodeAtIsId_append _ (hEWC e he).1, nodeAtIsId_append _ (hEWC e he).2⟩
      · intro e he
        rw [hed.1] at he
        obtain ⟨e', he', hp⟩ := hRefl e he
        exact ⟨e', by rw [hed.1]; exact he', hp⟩

theorem inv_connect {NP EP : Type} (ops : PropOps NP EP) (r : Registry NP EP)
    (f t : Uuid) (et : EdgeType) (p : EP) (h : Inv r) :
    Inv (Registry.connect ops r f t et p).2 := by
  obtain ⟨hMC, hEWC, hRefl⟩ := h
  cases hf : r.get_idx f with
  | error e =>
    have he : Registry.connect ops r f t et p = (.error e, r) := by
      unfold Registry.connect; rw [hf]
    rw [he]
    exact ⟨hMC, hEWC, hRefl⟩
  | ok fi =>
    cases ht : r.get_idx t with
    | error e =>
      have he : Registry.connect ops r f t et p = (.error e, r) := by
        unfold Registry.connect; rw [hf, ht]
      rw [he]
      exact ⟨hMC, hEWC, hRefl⟩
    | ok ti =>
      have hlf := get_idx_lookup hf
      have hlt := get_idx_lookup ht
      have hnf : nodeAtIsId r.nodes fi f := hMC _ (lookup_mem _ _ _ hlf.1)
      have hnt : nodeAtIsId r.nodes ti t := hMC _ (lookup_mem _ _ _ hlt.1)
      have hPf : (r.nodes.get? fi).isSome := by
        obtain ⟨fe, hfe, _⟩ := hnf; rw [hfe]; rfl
      have hPt : (r.nodes.get? ti).isSome := by
        obtain ⟨te, hte, _⟩ := hnt; rw [hte]; rfl
      have hshape : (Registry.connect ops r f t et p).2 =
          (let r1 := if (r.edges.any fun e =>
                decide (e.source = fi ∧ e.target = ti ∧ e.weight.edge_type = et)) = true
              then r else Registry.insert_edge ops r et fi ti f t p
           if (r1.edges.any fun e =>
                decide (e.source = ti ∧ e.target = fi ∧
                  e.weight.edge_type = et.reflection)) = true
              then r1
              else Registry.insert_edge ops r1 et.reflection ti fi t f
                (ops.reflectionProp p)) := by
        unfold Registry.connect; rw [hf, ht]
      rw [hshape]
      clear hshape
      set c1 := (r.edges.any fun e =>
        decide (e.source = fi ∧ e.target = ti ∧ e.weight.edge_type = et)) = true with hc1def
      set r1 := if c1 then r else Registry.insert_edge ops r et fi ti f t p with hr1def
      -- facts about r1
      have hr1nodes : ∀ j, ((r1.nodes.get? j).map (·.id)) = ((r.nodes.get? j).map (·.id)) := by
        intro j
        rw [hr1def]
        by_cases hc : c1
        · rw [if_pos hc]
        · rw [if_neg hc]; exact insert_edge_nodes_id ..
      have hr1comp : r1.node_id_map = r.node_id_map ∧ r1.name_id_map = r.name_id_map ∧
          r1.deleted = r.deleted ∧ r1.entry_points = r.entry_points := by
        rw [hr1def]
        by_cases hc : c1
        · rw [if_pos hc]; exact ⟨rfl, rfl, rfl, rfl⟩
        · rw [if_neg hc]
          have := insert_edge_components ops r et fi ti f t p
          exact ⟨this.1, this.2.1, this.2.2.1, this.2.2.2.1⟩
      have hnf1 : nodeAtIsId r1.nodes fi f := (nodeAtIsId_congr hr1nodes fi f).mpr hnf
      have hnt1 : nodeAtIsId r1.nodes ti t := (nodeAtIsId_congr hr1nodes ti t).mpr hnt
      have hPf1 : (r1.nodes.get? fi).isSome := by
        obtain ⟨fe, hfe, _⟩ := hnf1; rw [hfe]; rfl
      have hPt1 : (r1.nodes.get? ti).isSome := by
        obtain ⟨te, hte, _⟩ := hnt1; rw [hte]; rfl
      have hr1edges : (c1 ∧ r1.edges = r.edges) ∨
          (¬c1 ∧ r1.edges = r.edges ++ [⟨fi, ti, ⟨f, t, et, p⟩⟩]) := by
        by_cases hc : c1
        · exact Or.inl ⟨hc, by rw [hr1def, if_pos hc]⟩
        · exact Or.inr ⟨hc, by
            rw [hr1def, if_neg hc]
            exact insert_edge_edges_valid ops r et fi ti f t p hPf hPt⟩
      have hsub1 : ∀ ee ∈ r.edges, ee ∈ r1.edges := by
        intro ee hee
        rcases hr1edges with ⟨_, hh⟩ | ⟨_, hh⟩
        · rw [hh]; exact hee
        · rw [hh]; exact List.mem_append_left _ hee
      -- edge-weight consistency carried to r1
      have hEWC1 : ∀ e ∈ r1.edges,
          nodeAtIsId r1.nodes e.source e.weight.src ∧
          nodeAtIsId r1.nodes e.target e.weight.dst := by
        intro e he
        rcases hr1edges with ⟨_, hh⟩ | ⟨_, hh⟩
        · rw [hh] at he
          exact ⟨(nodeAtIsId_congr hr1nodes ..).mpr (hEWC e he).1,
            (nodeAtIsId_congr hr1nodes ..).mpr (hEWC e he).2⟩
        · rw [hh] at he
          rcases List.mem_append.mp he with he' | he'
          · exact ⟨(nodeAtIsId_congr hr1nodes ..).mpr (hEWC e he').1,
              (nodeAtIsId_congr hr1nodes ..).mpr (hEWC e he').2⟩
          · cases List.mem_singleton.mp he'
            exact ⟨hnf1, hnt1⟩
      set c2 := (r1.edges.any fun e =>
        decide (e.source = ti ∧ e.target = fi ∧
          e.weight.edge_type = et.reflection)) = true with hc2def
      set r2 := if c2 then r1
        else Registry.insert_edge ops r1 et.reflection ti fi t f (ops.reflectionProp p)
        with hr2def
      have hr2nodes : ∀ j, ((r2.nodes.get? j).map (·.id)) = ((r1.nodes.get? j).map (·.id)) := by
        intro j
        rw [hr2def]
        by_cases hc : c2
        · rw [if_pos hc]
        · rw [if_neg hc]; exact insert_edge_nodes_id ..
      have hnodes2 : ∀ j, ((r2.nodes.get? j).map (·.id)) = ((r.nodes.get? j).map (·.id)) :=
        fun j => (hr2nodes j).trans (hr1nodes j)
      have hr2comp : r2.node_id_map = r.node_id_map := by
        rw [hr2def]
        by_cases hc : c2
        · rw [if_pos hc]; exact hr1comp.1
        · rw [if_neg hc]
          exact (insert_edge_components ..).1.trans hr1comp.1
      have hr2edges : (c2 ∧ r2.edges = r1.edges) ∨
          (¬c2 ∧ r2.edges = r1.edges ++ [⟨ti, fi, ⟨t, f, et.reflection, ops.reflectionProp p⟩⟩]) := by
        by_cases hc : c2
        · exact Or.inl ⟨hc, by rw [hr2def, if_pos hc]⟩
        · exact Or.inr ⟨hc, by
            rw [hr2def, if_neg hc]
            exact insert_edge_edges_valid ops r1 et.reflection ti fi t f _ hPt1 hPf1⟩
      have hsub2 : ∀ ee ∈ r1.edges, ee ∈ r2.edges := by
        intro ee hee
        rcases hr2edges with ⟨_, hh⟩ | ⟨_, hh⟩
        · rw [hh]; exact hee
        · rw [hh]; exact List.mem_append_left _ hee
      refine ⟨?_, ?_, ?_⟩
      · -- MapConsistent r2
        intro q hq
        rw [hr2comp] at hq
        exact (nodeAtIsId_congr hnodes2 ..).mpr (hMC q hq)
      · -- EdgeWeightsConsistent r2
        intro e he
        rcases hr2edges with ⟨_, hh⟩ | ⟨_, hh⟩
        · rw [hh] at he
          exact ⟨(nodeAtIsId_congr hr2nodes ..).mpr (hEWC1 e he).1,
            (nodeAtIsId_congr hr2nodes ..).mpr (hEWC1 e he).2⟩
        · rw [hh] at he
          rcases List.mem_append.mp he with he' | he'
          · exact ⟨(nodeAtIsId_congr hr2nodes ..).mpr (hEWC1 e he').1,
              (nodeAtIsId_congr hr2nodes ..).mpr (hEWC1 e he').2⟩
          · cases List.mem_singleton.mp he'
            exact ⟨(nodeAtIsId_congr hr2nodes ..).mpr hnt1,
              (nodeAtIsId_congr hr2nodes ..).mpr hnf1⟩
      · -- ReflexiveEdges r2
        intro e he
        -- membership case analysis
        rcases hr2edges with ⟨hc2t, hh2⟩ | ⟨hc2f, hh2⟩
        · -- r2.edges = r1.edges
          rw [hh2] at he ⊢
          rcases hr1edges with ⟨hc1t, hh1⟩ | ⟨hc1f, hh1⟩
          · -- r1.edges = r.edges : state unchanged
            rw [hh1] at he ⊢
            exact hRefl e he
          · -- r1.edges = r.edges ++ [fwd]; c2 holds on r1
            rw [hh1] at he ⊢
            rcases List.mem_append.mp he with he' | he'
            · obtain ⟨e', he'', hp⟩ := hRefl e he'
              exact ⟨e', List.mem_append_left _ he'', hp⟩
            · cases List.mem_singleton.mp he'
              -- e is the forward edge; c2's witness is its pair
              obtain ⟨ee, hee, hdec⟩ := List.any_eq_true.mp hc2t
              obtain ⟨hs, ht', hty⟩ := of_decide_eq_true hdec
              have hw := hEWC1 ee hee
              have hws : ee.weight.src = t := by
                rw [hs] at hw
                exact nodeAtIsId_unique hw.1 hnt1
              have hwd : ee.weight.dst = f := by
                rw [ht'] at hw
                exact nodeAtIsId_unique hw.2 hnf1
              rw [hh1] at hee
              exact ⟨ee, hee, hs, ht', hws, hwd, hty⟩
        · -- r2.edges = r1.edges ++ [refl]
          rw [hh2] at he ⊢
          rcases List.mem_append.mp he with he' | he'
          · -- e ∈ r1.edges
            rcases hr1edges with ⟨hc1t, hh1⟩ | ⟨hc1f, hh1⟩
            · rw [hh1] at he'
              obtain ⟨e', he'', hp⟩ := hRefl e he'
              exact ⟨e', List.mem_append_left _ (by rw [hh1]; exact he''), hp⟩
            · rw [hh1] at he'
              rcases List.mem_append.mp he' with he'' | he''
              · obtain ⟨e', he''', hp⟩ := hRefl e he''
                exact ⟨e', List.mem_append_left _ (by rw [hh1]; exact List.mem_append_left _ he'''), hp⟩
              · cases List.mem_singleton.mp he''
                -- e is the forward edge; its pair is the appended reflection edge
                refine ⟨⟨ti, fi, ⟨t, f, et.reflection, ops.reflectionProp p⟩⟩,
                  List.mem_append_right _ (List.mem_singleton.mpr rfl),
                  rfl, rfl, rfl, rfl, rfl⟩
          · cases List.mem_singleton.mp he'
            -- e is the appended reflection edge; its pair is a forward edge
            rcases hr1edges with ⟨hc1t, hh1⟩ | ⟨hc1f, hh1⟩
            · -- forward edge already existed: c1's witness
              obtain ⟨ee, hee, hdec⟩ := List.any_eq_true.mp hc1t
              obtain ⟨hs, ht', hty⟩ := of_decide_eq_true hdec
              have hw := hEWC ee hee
              have hws : ee.weight.src = f := by
                rw [hs] at hw
                exact nodeAtIsId_unique hw.1 hnf
              have hwd : ee.weight.dst = t := by
                rw [ht'] at hw
                exact nodeAtIsId_unique hw.2 hnt
              refine ⟨ee, List.mem_append_left _ (hsub1 ee hee), hs, ht', hws, hwd, ?_⟩
              rw [hty, EdgeType.reflection_reflection]
            · -- forward edge inserted by the first stage
              refine ⟨⟨fi, ti, ⟨f, t, et, p⟩⟩,
                List.mem_append_left _ (by rw [hh1]; exact List.mem_append_right _ (List.mem_singleton.mpr rfl)),
                rfl, rfl, rfl, rfl, ?_⟩
              rw [EdgeType.reflection_reflection]

/-- The success branch of `delete_entity_by_id`, spelled out. -/
theorem delete_success_shape {NP EP : Type} (ops : PropOps NP EP) (r : Registry NP EP)
    (uuid : Uuid) (idx : Nat) (hidx : r.get_idx uuid = .ok idx)
    (hnd : (r.edges.any fun e =>
      decide (e.source = idx ∧ e.weight.edge_type.is_downstream = true)) = false) :
    Registry.delete_entity_by_id ops r uuid =
      (.ok (),
        { r with
          nodes := (r.edges.filter fun e =>
              decide (deleteEdgePred idx (r.get_neighbors_idx idx fun _ => true) e)).foldl
            (disconnectStep ops) r.nodes
          edges := r.edges.filter fun e =>
            decide ¬(deleteEdgePred idx (r.get_neighbors_idx idx fun _ => true) e)
          deleted := uuid :: r.deleted }) := by
  unfold Registry.delete_entity_by_id
  rw [hidx]
  simp only [hnd, Bool.false_eq_true, if_false]

theorem inv_delete {NP EP : Type} (ops : PropOps NP EP) (r : Registry NP EP)
    (uuid : Uuid) (h : Inv r) : Inv (Registry.delete_entity_by_id ops r uuid).2 := by
  obtain ⟨hMC, hEWC, hRefl⟩ := h
  cases hidx : r.get_idx uuid with
  | error e =>
    have he : Registry.delete_entity_by_id ops r uuid = (.error e, r) := by
      unfold Registry.delete_entity_by_id
      rw [hidx]
    rw [he]
    exact ⟨hMC, hEWC, hRefl⟩
  | ok idx =>
    by_cases hnd : (r.edges.any fun e =>
        decide (e.source = idx ∧ e.weight.edge_type.is_downstream = true)) = true
    · have he : Registry.delete_entity_by_id ops r uuid = (.error (.DeleteInUsed uuid), r) := by
        unfold Registry.delete_entity_by_id
        rw [hidx]
        simp only [hnd, if_true]
      rw [he]
      exact ⟨hMC, hEWC, hRefl⟩
    · have hnd' : (r.edges.any fun e =>
          decide (e.source = idx ∧ e.weight.edge_type.is_downstream = true)) = false := by
        cases hx : (r.edges.any fun e =>
            decide (e.source = idx ∧ e.weight.edge_type.is_downstream = true))
        · rfl
        · exact absurd hx hnd
      rw [delete_success_shape ops r uuid idx hidx hnd']
      set nbrs := r.get_neighbors_idx idx fun _ => true with hnbrs
      set nodes2 := (r.edges.filter fun e =>
        decide (deleteEdgePred idx nbrs e)).foldl (disconnectStep ops) r.nodes with hnodes2
      have hid2 : ∀ j, ((nodes2.get? j).map (·.id)) = ((r.nodes.get? j).map (·.id)) := by
        intro j
        rw [hnodes2]
        exact disconnectFold_id ..
      refine ⟨?_, ?_, ?_⟩
      · intro q hq
        exact (nodeAtIsId_congr hid2 ..).mpr (hMC q hq)
      · intro e he
        have he' : e ∈ r.edges := (List.mem_filter.mp he).1
        exact ⟨(nodeAtIsId_congr hid2 ..).mpr (hEWC e he').1,
          (nodeAtIsId_congr hid2 ..).mpr (hEWC e he').2⟩
      · intro e he
        obtain ⟨he', hp⟩ := List.mem_filter.mp he
        have hnp : ¬ deleteEdgePred idx nbrs e := of_decide_eq_true hp
        obtain ⟨e', he'', hp'⟩ := hRefl e he'
        refine ⟨e', List.mem_filter.mpr ⟨he'', decide_eq_true ?_⟩, hp'⟩
        intro hpe'
        apply hnp
        rcases hpe' with ⟨hs, ht⟩ | ⟨hs, ht⟩
        · exact Or.inr ⟨by rw [← hp'.2.1]; exact ht, by rw [← hp'.1]; exact hs⟩
        · exact Or.inl ⟨by rw [← hp'.2.1]; exact ht, by rw [← hp'.1]; exact hs⟩

/-- The empty registry satisfies the invariant. -/
theorem inv_new {NP EP : Type} : Inv (@Registry.new NP EP) := by
  refine ⟨?_, ?_, ?_⟩ <;> intro x hx <;> cases hx

theorem inv_applyOp {NP EP : Type} (ops : PropOps NP EP) (r : Registry NP EP)
    (op : RegOp NP EP) (h : Inv r) : Inv (applyOp ops r op) := by
  cases op with
  | insert uuid ty name qname props => exact inv_insert r uuid ty name qname props h
  | connect f t et p => exact inv_connect ops r f t et p h
  | delete uuid => exact inv_delete ops r uuid h

theorem inv_applyOps {NP EP : Type} (ops : PropOps NP EP) (r : Registry NP EP)
    (prog : List (RegOp NP EP)) (h : Inv r) : Inv (applyOps ops r prog) := by
  induction prog generalizing r with
  | nil => exact h
  | cons op rest ih =>
    rw [applyOps, List.foldl_cons]
    exact ih _ (inv_applyOp ops r op h)

/-! ## Claim theorems -/

theorem isSome_of_map_id_eq {NP : Type} {o1 o2 : Option (Entity NP)}
    (h : o1.map (·.id) = o2.map (·.id)) : o1.isSome = o2.isSome := by
  have := congrArg Option.isSome h
  simpa using this

/-- C8: `connect` is idempotent — running
`connect(a, b, t, props)` twice from any registry state returns the
same result and the same post-state (graph arena, endpoint properties,
and all indices) as running it once; the second call finds the
existing forward and reflection edges and inserts nothing, so no
property mutator runs again.  Generic in the `EntityProp` /
`EdgeProp` trait implementations. -/
theorem c8_connect_idempotent {NP EP : Type} (ops : PropOps NP EP) (r : Registry NP EP)
    (f t : Uuid) (et : EdgeType) (p : EP) :
    Registry.connect ops (Registry.connect ops r f t et p).2 f t et p =
      Registry.connect ops r f t et p := by
  cases hf : r.get_idx f with
  | error e =>
    have h1 : Registry.connect ops r f t et p = (.error e, r) := by
      unfold Registry.connect; rw [hf]
    rw [h1]
    exact h1
  | ok fi =>
    cases ht : r.get_idx t with
    | error e =>
      have h1 : Registry.connect ops r f t et p = (.error e, r) := by
        unfold Registry.connect; rw [hf, ht]
      rw [h1]
      exact h1
    | ok ti =>
      by_cases hP : ((r.nodes.get? fi).isSome ∧ (r.nodes.get? ti).isSome)
      · obtain ⟨hPf, hPt⟩ := hP
        -- the post-state of the first call
        have hcomp := connect_components ops r f t et p
        have hf2 : (Registry.connect ops r f t et p).2.get_idx f = .ok fi := by
          rw [get_idx_congr r _ hcomp.1 hcomp.2.2.1]; exact hf
        have ht2 : (Registry.connect ops r f t et p).2.get_idx t = .ok ti := by
          rw [get_idx_congr r _ hcomp.1 hcomp.2.2.1]; exact ht
        -- shape of the post-state
        have hshape : (Registry.connect ops r f t et p).2 =
            (let r1 := if (r.edges.any fun e =>
                  decide (e.source = fi ∧ e.target = ti ∧ e.weight.edge_type = et)) = true
                then r else Registry.insert_edge ops r et fi ti f t p
             if (r1.edges.any fun e =>
                  decide (e.source = ti ∧ e.target = fi ∧
                    e.weight.edge_type = et.reflection)) = true
                then r1
                else Registry.insert_edge ops r1 et.reflection ti fi t f
                  (ops.reflectionProp p)) := by
          unfold Registry.connect; rw [hf, ht]
        -- r1 properties
        set c1 := (r.edges.any fun e =>
          decide (e.source = fi ∧ e.target = ti ∧ e.weight.edge_type = et)) = true with hc1def
        set r1 := if c1 then r else Registry.insert_edge ops r et fi ti f t p with hr1def
        have hr1nodes : ∀ j, ((r1.nodes.get? j).map (·.id)) = ((r.nodes.get? j).map (·.id)) := by
          intro j
          rw [hr1def]
          by_cases hc : c1
          · rw [if_pos hc]
          · rw [if_neg hc]; exact insert_edge_nodes_id ..
        have hr1f : (r1.nodes.get? ti).isSome := by
          rw [isSome_of_map_id_eq (hr1nodes ti)]; exact hPt
        have hr1t : (r1.nodes.get? fi).isSome := by
          rw [isSome_of_map_id_eq (hr1nodes fi)]; exact hPf
        have hfwd_r1 : ∃ ee ∈ r1.edges,
            ee.source = fi ∧ ee.target = ti ∧ ee.weight.edge_type = et := by
          by_cases hc : c1
          · obtain ⟨ee, hee, hdec⟩ := List.any_eq_true.mp hc
            exact ⟨ee, by rw [hr1def, if_pos hc]; exact hee, of_decide_eq_true hdec⟩
          · refine ⟨⟨fi, ti, ⟨f, t, et, p⟩⟩, ?_, rfl, rfl, rfl⟩
            rw [hr1def, if_neg hc, insert_edge_edges_valid ops r et fi ti f t p hPf hPt]
            exact List.mem_append_right _ (List.mem_singleton.mpr rfl)
        set c2 := (r1.edges.any fun e =>
          decide (e.source = ti ∧ e.target = fi ∧
            e.weight.edge_type = et.reflection)) = true with hc2def
        set post := if c2 then r1 else Registry.insert_edge ops r1 et.reflection ti fi t f
          (ops.reflectionProp p) with hpostdef
        have hpost_sub : ∀ ee ∈ r1.edges, ee ∈ post.edges := by
          intro ee hee
          rw [hpostdef]
          by_cases hc : c2
          · rw [if_pos hc]; exact hee
          · rw [if_neg hc]
            obtain ⟨l, hl⟩ := insert_edge_edges_append ops r1 et.reflection ti fi t f
              (ops.reflectionProp p)
            rw [hl]; exact List.mem_append_left _ hee
        have hfwd_post : ∃ ee ∈ post.edges,
            ee.source = fi ∧ ee.target = ti ∧ ee.weight.edge_type = et := by
          obtain ⟨ee, hee, hprops⟩ := hfwd_r1
          exact ⟨ee, hpost_sub ee hee, hprops⟩
        have hrefl_post : ∃ ee ∈ post.edges,
            ee.source = ti ∧ ee.target = fi ∧ ee.weight.edge_type = et.reflection := by
          by_cases hc : c2
          · obtain ⟨ee, hee, hdec⟩ := List.any_eq_true.mp hc
            exact ⟨ee, by rw [hpostdef, if_pos hc]; exact hee, of_decide_eq_true hdec⟩
          · refine ⟨⟨ti, fi, ⟨t, f, et.reflection, ops.reflectionProp p⟩⟩, ?_, rfl, rfl, rfl⟩
            rw [hpostdef, if_neg hc,
              insert_edge_edges_valid ops r1 et.reflection ti fi t f _ hr1f hr1t]
            exact List.mem_append_right _ (List.mem_singleton.mpr rfl)
        -- identify post with the second component of the first call
        have hpost_eq : (Registry.connect ops r f t et p).2 = post := by
          rw [hshape]
        have hres1 : (Registry.connect ops r f t et p).1 = .ok () := by
          unfold Registry.connect; rw [hf, ht]
        -- the second call is a no-op
        have hany_fwd : (post.edges.any fun e =>
            decide (e.source = fi ∧ e.target = ti ∧ e.weight.edge_type = et)) = true := by
          obtain ⟨ee, hee, hprops⟩ := hfwd_post
          exact List.any_eq_true.mpr ⟨ee, hee, decide_eq_true hprops⟩
        have hany_refl : (post.edges.any fun e =>
            decide (e.source = ti ∧ e.target = fi ∧
              e.weight.edge_type = et.reflection)) = true := by
          obtain ⟨ee, hee, hprops⟩ := hrefl_post
          exact List.any_eq_true.mpr ⟨ee, hee, decide_eq_true hprops⟩
        have h2 : Registry.connect ops post f t et p = (.ok (), post) := by
          unfold Registry.connect
          rw [get_idx_congr r post ?hm ?hd, hf, get_idx_congr r post ?hm ?hd, ht]
          case hm => rw [← hpost_eq]; exact hcomp.1
          case hd => rw [← hpost_eq]; exact hcomp.2.2.1
          simp only [hany_fwd, if_true, hany_refl]
        rw [hpost_eq, h2]
        rw [Prod.ext_iff]
        exact ⟨hres1.symm, hpost_eq.symm⟩
      · have hIE1 : Registry.insert_edge ops r et fi ti f t p = r :=
          insert_edge_invalid ops r et fi ti f t p hP
        have hIE2 : Registry.insert_edge ops r et.reflection ti fi t f
            (ops.reflectionProp p) = r :=
          insert_edge_invalid ops r et.reflection ti fi t f (ops.reflectionProp p)
            (fun hh => hP ⟨hh.2, hh.1⟩)
        have h1 : Registry.connect ops r f t et p = (.ok (), r) := by
          unfold Registry.connect
          rw [hf, ht]
          simp only [hIE1, hIE2, ite_self]
        rw [h1]
        exact h1


/-- C1: `Registry::connect` never consults the section-4.1 validation
matrix.  Concretely: with a project (id 1) and a source (id 2) in the
registry, `connect(source, project, Contains)` — a triple rejected by
`EdgeType::validate` — returns `Ok` and inserts the edge instead of
failing with `InvalidEdge`.  (`EdgeType::validate` and
`RegistryError::InvalidEdge` are declared but invoked nowhere.) -/
theorem c1_connect_skips_validation :
    EdgeType.validate .Contains .Source .Project = false ∧
    (Registry.connect unitOps rPS 2 1 .Contains ()).1 = .ok () ∧
    ((Registry.connect unitOps rPS 2 1 .Contains ()).2.edges.any fun e =>
      decide (e.weight.src = 2 ∧ e.weight.dst = 1 ∧
        e.weight.edge_type = .Contains)) = true := by
  refine ⟨rfl, ?_, ?_⟩ <;> decide

/-- C2 counterexample: a writing request on a non-leader with an
`opt_seq` barrier set is *forwarded* to the leader — not rejected —
when the local node has no applied log or its applied index is below
the barrier. -/
theorem c2_counterexample :
    routeRequest .notLeader (some 1) none true = .forward ∧
    routeRequest .notLeader (some 5) (some 3) true = .forward ∧
    RouteAction.forward ≠ RouteAction.rejectWrite := by decide

/-- C2 amended: on a non-leader, a writing request with barrier `seq`
is rejected with the `BadRequest` error exactly when the local applied
index has caught up (`seq ≤ l`); when the local index is absent or
below the barrier the request is forwarded to the leader.  It is never
submitted to Raft locally and never handled as a local read. -/
theorem c2_router_follower_write (seq : Nat) (la : Option Nat) :
    routeRequest .notLeader (some seq) la true =
      (match la with
       | none => .forward
       | some l => if l < seq then .forward else .rejectWrite) ∧
    routeRequest .notLeader (some seq) la true ≠ .submitToRaft ∧
    routeRequest .notLeader (some seq) la true ≠ .handleLocalRead := by
  cases la with
  | none =>
    have he : routeRequest .notLeader (some seq) none true = .forward := rfl
    exact ⟨rfl, by rw [he]; decide, by rw [he]; decide⟩
  | some l =>
    unfold routeRequest
    by_cases h : l < seq
    · simp [h]
    · simp [h]

/-- C3: applying a write from the log is *not* a function of the
request and the registry state — `EntityProperty::new_project` (and the
other four constructors) stamp `lastModifiedTS` from
`chrono::Utc::now()` at apply time.  The same `NewProject` request
with the same pre-assigned id, applied to the same (empty) registry at
clock second 1 versus second 2, yields different entity properties and
different registry states. -/
theorem c3_apply_reads_clock :
    EntityProperty.newProject ⟨1, "p1", []⟩ 1 ≠ EntityProperty.newProject ⟨1, "p1", []⟩ 2 ∧
    (Registry.new_project (@Registry.new EntityProperty Unit) ⟨1, "p1", []⟩ 1).2 ≠
      (Registry.new_project (@Registry.new EntityProperty Unit) ⟨1, "p1", []⟩ 2).2 := by
  refine ⟨?_, ?_⟩ <;> decide

/-- C6 counterexample: after deleting the sole project, its id is held
by no live entity, yet re-inserting under that id fails with the
duplicate-id error — `insert_entity` checks the `node_id_map` index,
which retains tombstoned entities. -/
theorem c6_counterexample :
    ¬ rDel.isLiveId 1 ∧
    (rDel.insert_entity 1 .Project "q" "q" ()).1 = .error (.EntityIdExists 1) := by
  constructor
  · decide
  · decide

/-- C6 amended: `insert_entity` fails with the duplicate-id error
exactly when the id is present in the id index (live *or* tombstoned),
the id check preceding the name check; it fails with the
duplicate-qualified-name error exactly when the id is absent and the
qualified name is present in the name index (live or tombstoned);
otherwise it succeeds, appending the node, updating both indices, and
appending to the entry-point list when the type is an entry-point
type.  Failures leave the registry unchanged. -/
theorem c6_insert_entity_checks {NP EP : Type} (r : Registry NP EP) (uuid : Uuid)
    (ty : EntityType) (name qname : String) (props : NP) :
    ((r.insert_entity uuid ty name qname props).1 = .error (.EntityIdExists uuid) ↔
        (r.node_id_map.lookup uuid).isSome = true) ∧
    ((r.insert_entity uuid ty name qname props).1 = .error (.EntityNameExists qname) ↔
        (r.node_id_map.lookup uuid).isSome = false ∧
          (r.name_id_map.lookup qname).isSome = true) ∧
    (∀ e, (r.insert_entity uuid ty name qname props).1 = .error e →
        (r.insert_entity uuid ty name qname props).2 = r) ∧
    ((r.node_id_map.lookup uuid).isSome = false →
      (r.name_id_map.lookup qname).isSome = false →
        (r.insert_entity uuid ty name qname props).1 = .ok uuid ∧
        (r.insert_entity uuid ty name qname props).2.nodes =
          r.nodes ++ [{ id := uuid, entity_type := ty, name := name
                        qualified_name := qname, containers := [], properties := props }] ∧
        (r.insert_entity uuid ty name qname props).2.node_id_map =
          (uuid, r.nodes.length) :: r.node_id_map ∧
        (r.insert_entity uuid ty name qname props).2.name_id_map =
          (qname, uuid) :: r.name_id_map ∧
        (r.insert_entity uuid ty name qname props).2.entry_points =
          (if ty.is_entry_point then r.entry_points ++ [r.nodes.length]
           else r.entry_points) ∧
        (r.insert_entity uuid ty name qname props).2.edges = r.edges ∧
        (r.insert_entity uuid ty name qname props).2.deleted = r.deleted) := by
  by_cases h1 : (r.node_id_map.lookup uuid).isSome = true
  · have he : r.insert_entity uuid ty name qname props = (.error (.EntityIdExists uuid), r) := by
      unfold Registry.insert_entity
      rw [if_pos h1]
    rw [he]
    refine ⟨⟨fun _ => h1, fun _ => rfl⟩, ⟨fun hh => ?_, fun hh => ?_⟩, fun _ _ => rfl, fun hh => ?_⟩
    · cases hh
    · rw [h1] at hh; cases hh.1
    · rw [h1] at hh; cases hh
  · have h1' : (r.node_id_map.lookup uuid).isSome = false := by
      cases hx : (r.node_id_map.lookup uuid).isSome
      · rfl
      · exact absurd hx h1
    by_cases h2 : (r.name_id_map.lookup qname).isSome = true
    · have he : r.insert_entity uuid ty name qname props =
          (.error (.EntityNameExists qname), r) := by
        unfold Registry.insert_entity
        rw [if_neg (by rw [h1']; decide), if_pos h2]
      rw [he]
      refine ⟨⟨fun hh => ?_, fun hh => ?_⟩, ⟨fun _ => ⟨h1', h2⟩, fun _ => rfl⟩,
        fun _ _ => rfl, fun _ hh => ?_⟩
      · cases hh
      · rw [hh] at h1; cases h1 rfl
      · rw [h2] at hh; cases hh
    · have h2' : (r.name_id_map.lookup qname).isSome = false := by
        cases hx : (r.name_id_map.lookup qname).isSome
        · rfl
        · exact absurd hx h2
      have hs := insert_entity_success r uuid ty name qname props h1' h2'
      have hed := insert_entity_edges_deleted r uuid ty name qname props
      refine ⟨⟨fun hh => ?_, fun hh => ?_⟩, ⟨fun hh => ?_, fun hh => ?_⟩,
        fun e hh => ?_, fun _ _ => ⟨hs.1, hs.2.1, hs.2.2.1, hs.2.2.2.1, hs.2.2.2.2,
          hed.1, hed.2⟩⟩
      · rw [hs.1] at hh; cases hh
      · rw [hh] at h1; cases h1 rfl
      · rw [hs.1] at hh; cases hh
      · rw [hh.2] at h2; cases h2 rfl
      · rw [hs.1] at hh; cases hh

/-- Witness for C6: the success branch at a concrete fresh input. -/
theorem c6_insert_entity_checks_witness :
    ((@Registry.new Unit Unit).node_id_map.lookup 1).isSome = false ∧
    ((@Registry.new Unit Unit).name_id_map.lookup "p").isSome = false ∧
    ((@Registry.new Unit Unit).insert_entity 1 .Project "p" "p" ()).1 = .ok 1 :=
  ⟨rfl, rfl,
    ((c6_insert_entity_checks (@Registry.new Unit Unit)
        1 .Project "p" "p" ()).2.2.2 rfl rfl).1⟩

/-- C7 counterexample: with `size_limit = 0`, `bfs` still returns the
one-element list holding the start entity — the claimed bound
`length ≤ size_limit` fails at 0. -/
theorem c7_counterexample :
    (rP.bfs 1 .Contains 0).toOption.map (fun x => x.1.length) = some 1 ∧ ¬(1 ≤ 0) := by
  constructor
  · unfold Registry.bfs Registry.bfs_traversal
    rw [show rP.get_idx 1 = Except.ok 0 from rfl]
    simp only [bfsLoop_zero]
    decide
  · decide

/-- C9 counterexample: after `enable(false)`, `add_doc` returns success
but does *not* leave the pending-document queue unchanged — it queues
the document regardless of the flag (only `index` consults
`enabled`). -/
theorem c9_counterexample :
    (((@FtsIndex.new Nat).enable false).add_doc 7).1 = .ok () ∧
    (((@FtsIndex.new Nat).enable false).add_doc 7).2.queued ≠
      ((@FtsIndex.new Nat).enable false).queued := by decide

/-- C9 amended: while the index is disabled, `index` (add + commit, the
path used by `insert_entity`) returns success with no effect at all;
`add_doc` returns success and leaves the committed (search-visible)
set unchanged, but still appends the document to the writer queue. -/
theorem c9_fts_disabled {D : Type} (f : FtsIndex D) (d : D) (h : f.enabled = false) :
    f.index d = (.ok (), f) ∧
    (f.add_doc d).1 = .ok () ∧
    (f.add_doc d).2.committed = f.committed ∧
    (f.add_doc d).2.queued = f.queued ++ [d] := by
  refine ⟨?_, rfl, rfl, rfl⟩
  unfold FtsIndex.index
  rw [h]
  rfl

/-- Witness for C9: the disabled index at a concrete document. -/
theorem c9_fts_disabled_witness :
    ((@FtsIndex.new Nat).enable false).enabled = false ∧
    ((@FtsIndex.new Nat).enable false).index 7 =
      (.ok (), (@FtsIndex.new Nat).enable false) :=
  ⟨rfl, (c9_fts_disabled ((@FtsIndex.new Nat).enable false) 7 rfl).1⟩

/-- C4: reflexive-edge invariant — in every registry state reachable
from the empty registry by any sequence of `insert_entity`, `connect`
and `delete_entity_by_id` operations (the creation operations are
compositions of these), every edge `(a, b, t)` of the graph has its
paired edge `(b, a, reflection(t))`, structurally and in the weight
uuids: `connect` inserts the pair together and deletion removes the
incident edges of both directions together. -/
theorem c4_reflexive_invariant {NP EP : Type} (ops : PropOps NP EP)
    (prog : List (RegOp NP EP)) :
    ReflexiveEdges (applyOps ops Registry.new prog) :=
  (inv_applyOps ops Registry.new prog inv_new).2.2

/-- One primitive operation preserves "q maps to id in the name index
and id is tombstoned". -/
theorem reserved_applyOp {NP EP : Type} (ops : PropOps NP EP) (r : Registry NP EP)
    (q : String) (id : Uuid) (op : RegOp NP EP)
    (hq : r.name_id_map.lookup q = some id) (hdel : id ∈ r.deleted) :
    (applyOp ops r op).name_id_map.lookup q = some id ∧ id ∈ (applyOp ops r op).deleted := by
  cases op with
  | insert uuid ty name qname props =>
    show ((r.insert_entity uuid ty name qname props).2.name_id_map.lookup q = some id) ∧
      id ∈ (r.insert_entity uuid ty name qname props).2.deleted
    by_cases h1 : (r.node_id_map.lookup uuid).isSome = true
    · have he : r.insert_entity uuid ty name qname props =
          (.error (.EntityIdExists uuid), r) := by
        unfold Registry.insert_entity
        rw [if_pos h1]
      rw [he]
      exact ⟨hq, hdel⟩
    · have h1' : (r.node_id_map.lookup uuid).isSome = false := by
        cases hx : (r.node_id_map.lookup uuid).isSome
        · rfl
        · exact absurd hx h1
      by_cases h2 : (r.name_id_map.lookup qname).isSome = true
      · have he : r.insert_entity uuid ty name qname props =
            (.error (.EntityNameExists qname), r) := by
          unfold Registry.insert_entity
          rw [if_neg (by rw [h1']; decide), if_pos h2]
        rw [he]
        exact ⟨hq, hdel⟩
      · have h2' : (r.name_id_map.lookup qname).isSome = false := by
          cases hx : (r.name_id_map.lookup qname).isSome
          · rfl
          · exact absurd hx h2
        have hs := insert_entity_success r uuid ty name qname props h1' h2'
        have hed := insert_entity_edges_deleted r uuid ty name qname props
        have hne : q ≠ qname := by
          intro hcontra
          rw [hcontra] at hq
          rw [hq] at h2'
          cases h2'
        constructor
        · rw [hs.2.2.2.1, List.lookup_cons]
          have hbeq : (q == qname) = false := beq_eq_false_iff_ne.mpr hne
          simp only [hbeq]
          exact hq
        · rw [hed.2]
          exact hdel
  | connect f t et p =>
    have hc := connect_components ops r f t et p
    show ((Registry.connect ops r f t et p).2.name_id_map.lookup q = some id) ∧
      id ∈ (Registry.connect ops r f t et p).2.deleted
    rw [hc.2.1, hc.2.2.1]
    exact ⟨hq, hdel⟩
  | delete uuid =>
    show ((Registry.delete_entity_by_id ops r uuid).2.name_id_map.lookup q = some id) ∧
      id ∈ (Registry.delete_entity_by_id ops r uuid).2.deleted
    cases hidx : r.get_idx uuid with
    | error e =>
      have he : Registry.delete_entity_by_id ops r uuid = (.error e, r) := by
        unfold Registry.delete_entity_by_id
        rw [hidx]
      rw [he]
      exact ⟨hq, hdel⟩
    | ok idx =>
      by_cases hnd : (r.edges.any fun e =>
          decide (e.source = idx ∧ e.weight.edge_type.is_downstream = true)) = true
      · have he : Registry.delete_entity_by_id ops r uuid =
            (.error (.DeleteInUsed uuid), r) := by
          unfold Registry.delete_entity_by_id
          rw [hidx]
          simp only [hnd, if_true]
        rw [he]
        exact ⟨hq, hdel⟩
      · have hnd' : (r.edges.any fun e =>
            decide (e.source = idx ∧ e.weight.edge_type.is_downstream = true)) = false := by
          cases hx : (r.edges.any fun e =>
              decide (e.source = idx ∧ e.weight.edge_type.is_downstream = true))
          · rfl
          · exact absurd hx hnd
        rw [delete_success_shape ops r uuid idx hidx hnd']
        exact ⟨hq, List.mem_cons_of_mem _ hdel⟩

/-- C10: a deleted entity's qualified name stays reserved forever.  If
`q` maps to the tombstoned id in the name index (the state left by a
successful `delete_entity_by_id` of the entity carrying `q`), then
after any further sequence of operations: `q` still maps to that id,
the id is still tombstoned, `get_entity_by_name q` reports the entity
as missing, and every `insert_entity` supplying qualified name `q`
(under a fresh id — a duplicate id fails even earlier, with the id
error) fails with the duplicate-qualified-name error even though no
live entity carries `q`. -/
theorem c10_qualified_name_reserved {NP EP : Type} (ops : PropOps NP EP) (r : Registry NP EP)
    (q : String) (id : Uuid) (prog : List (RegOp NP EP))
    (hq : r.name_id_map.lookup q = some id) (hdel : id ∈ r.deleted) :
    (applyOps ops r prog).name_id_map.lookup q = some id ∧
    id ∈ (applyOps ops r prog).deleted ∧
    ¬ (applyOps ops r prog).isLiveId id ∧
    (applyOps ops r prog).get_entity_by_name q = none ∧
    (∀ uuid ty name (props : NP),
      ((applyOps ops r prog).node_id_map.lookup uuid).isSome = false →
      ((applyOps ops r prog).insert_entity uuid ty name q props).1 =
        .error (.EntityNameExists q)) := by
  have hmain : (applyOps ops r prog).name_id_map.lookup q = some id ∧
      id ∈ (applyOps ops r prog).deleted := by
    induction prog generalizing r with
    | nil => exact ⟨hq, hdel⟩
    | cons op rest ih =>
      rw [applyOps, List.foldl_cons]
      have hstep := reserved_applyOp ops r q id op hq hdel
      exact ih _ hstep.1 hstep.2
  set r' := applyOps ops r prog
  obtain ⟨hq', hdel'⟩ := hmain
  refine ⟨hq', hdel', ?_, ?_, ?_⟩
  · intro hlive
    exact hlive.2 hdel'
  · have hbyid : r'.get_entity_by_id id = none := by
      unfold Registry.get_entity_by_id
      cases hl : r'.node_id_map.lookup id with
      | none => rfl
      | some i => exact if_pos hdel'
    unfold Registry.get_entity_by_name
    rw [hq']
    exact hbyid
  · intro uuid ty name props h1
    have h2 : (r'.name_id_map.lookup q).isSome = true := by
      rw [hq']; rfl
    unfold Registry.insert_entity
    rw [if_neg (by rw [h1]; decide), if_pos h2]


/-- Witness for C10: the registry where project "project1" (id 1) was
deleted; after a further insert, the name is still reserved. -/
theorem c10_qualified_name_reserved_witness :
    rDel.name_id_map.lookup "project1" = some 1 ∧ 1 ∈ rDel.deleted ∧
    (applyOps unitOps rDel [RegOp.insert 3 .Source "s" "p__s" ()]).get_entity_by_name
      "project1" = none :=
  ⟨by decide, by decide,
    (c10_qualified_name_reserved unitOps rDel "project1" 1
      [RegOp.insert 3 .Source "s" "p__s" ()] (by decide) (by decide)).2.2.2.1⟩

/-- Under the reflexive-edge invariant, the edge set computed by
`delete_entity_by_id` (edges between the node and its outgoing
neighbors, in both directions) is exactly the set of incident edges. -/
theorem deleteEdgePred_iff_incident {NP EP : Type} (r : Registry NP EP) (idx : Nat)
    (hrefl : ReflexiveEdges r) (e : EdgeRec EP) (he : e ∈ r.edges) :
    deleteEdgePred idx (r.get_neighbors_idx idx fun _ => true) e ↔
      (e.source = idx ∨ e.target = idx) := by
  constructor
  · rintro (⟨hs, _⟩ | ⟨_, ht⟩)
    · exact Or.inl hs
    · exact Or.inr ht
  · intro hin
    rcases hin with hs | ht
    · refine Or.inl ⟨hs, ?_⟩
      unfold Registry.get_neighbors_idx
      refine List.mem_map.mpr ⟨e, List.mem_filter.mpr ⟨he, ?_⟩, rfl⟩
      exact decide_eq_true ⟨hs, rfl⟩
    · refine Or.inr ⟨?_, ht⟩
      obtain ⟨e', he', hp⟩ := hrefl e he
      unfold Registry.get_neighbors_idx
      refine List.mem_map.mpr ⟨e', List.mem_filter.mpr ⟨he', ?_⟩, hp.2.1⟩
      refine decide_eq_true ⟨?_, rfl⟩
      rw [hp.1, ht]

/-- C5: specification of `delete_entity_by_id` on states satisfying
the reachable-state invariants (reflexive edge pairs, live edge
targets).  Any failure — unknown or tombstoned id, or `DeleteInUsed` —
leaves the registry unchanged; the result is `DeleteInUsed` exactly
when the id is live and some outgoing edge has a downstream type
(`Contains`/`Produces`) to a live neighbor; on success every incident
edge (both directions) is removed, the disconnect hook runs once per
incident edge, the id joins the tombstone set, and the node and both
indices are retained. -/
theorem c5_delete_entity_spec {NP EP : Type} (ops : PropOps NP EP) (r : Registry NP EP) (uuid : Uuid)
    (hrefl : ReflexiveEdges r) (hlive : EdgesLive r) :
    (∀ e, (Registry.delete_entity_by_id ops r uuid).1 = .error e →
      (Registry.delete_entity_by_id ops r uuid).2 = r) ∧
    ((Registry.delete_entity_by_id ops r uuid).1 = .error (.DeleteInUsed uuid) ↔
      ∃ idx, r.get_idx uuid = .ok idx ∧
        ∃ e ∈ r.edges, e.source = idx ∧ e.weight.edge_type.is_downstream = true ∧
          EdgeTargetLive r e) ∧
    (∀ idx, r.get_idx uuid = .ok idx →
      (Registry.delete_entity_by_id ops r uuid).1 = .ok () →
      (Registry.delete_entity_by_id ops r uuid).2.edges =
        r.edges.filter (fun e => decide ¬(e.source = idx ∨ e.target = idx)) ∧
      (Registry.delete_entity_by_id ops r uuid).2.nodes =
        (r.edges.filter fun e => decide (e.source = idx ∨ e.target = idx)).foldl
          (disconnectStep ops) r.nodes ∧
      (Registry.delete_entity_by_id ops r uuid).2.deleted = uuid :: r.deleted ∧
      (Registry.delete_entity_by_id ops r uuid).2.nodes.map (·.id) = r.nodes.map (·.id) ∧
      (Registry.delete_entity_by_id ops r uuid).2.nodes.length = r.nodes.length ∧
      (Registry.delete_entity_by_id ops r uuid).2.node_id_map = r.node_id_map ∧
      (Registry.delete_entity_by_id ops r uuid).2.name_id_map = r.name_id_map) := by
  cases hidx : r.get_idx uuid with
  | error err =>
    have he : Registry.delete_entity_by_id ops r uuid = (.error err, r) := by
      unfold Registry.delete_entity_by_id
      rw [hidx]
    rw [he]
    have herr : err = RegistryError.InvalidEntity uuid := by
      unfold Registry.get_idx at hidx
      by_cases hd : uuid ∈ r.deleted
      · rw [if_pos hd] at hidx
        exact (Except.error.inj hidx).symm
      · rw [if_neg hd] at hidx
        cases hl : r.node_id_map.lookup uuid with
        | none => rw [hl] at hidx; exact (Except.error.inj hidx).symm
        | some j => rw [hl] at hidx; cases hidx
    refine ⟨fun _ _ => rfl, ⟨fun hh => ?_, fun hh => ?_⟩, fun idx hidx' _ => ?_⟩
    · rw [herr] at hh
      exact RegistryError.noConfusion (Except.error.inj hh)
    · obtain ⟨idx, hidx', _⟩ := hh
      exact Except.noConfusion hidx'
    · exact Except.noConfusion hidx'
  | ok idx =>
    by_cases hnd : (r.edges.any fun e =>
        decide (e.source = idx ∧ e.weight.edge_type.is_downstream = true)) = true
    · have he : Registry.delete_entity_by_id ops r uuid = (.error (.DeleteInUsed uuid), r) := by
        unfold Registry.delete_entity_by_id
        rw [hidx]
        simp only [hnd, if_true]
      rw [he]
      refine ⟨fun _ _ => rfl, ⟨fun _ => ?_, fun _ => rfl⟩, fun idx' hidx' hh => ?_⟩
      · obtain ⟨ee, hee, hdec⟩ := List.any_eq_true.mp hnd
        obtain ⟨hs, hdn⟩ := of_decide_eq_true hdec
        exact ⟨idx, rfl, ee, hee, hs, hdn, hlive ee hee⟩
      · cases hh
    · have hnd' : (r.edges.any fun e =>
          decide (e.source = idx ∧ e.weight.edge_type.is_downstream = true)) = false := by
        cases hx : (r.edges.any fun e =>
            decide (e.source = idx ∧ e.weight.edge_type.is_downstream = true))
        · rfl
        · exact absurd hx hnd
      rw [delete_success_shape ops r uuid idx hidx hnd']
      have hfe : (r.edges.filter fun e =>
          decide ¬(deleteEdgePred idx (r.get_neighbors_idx idx fun _ => true) e)) =
          r.edges.filter fun e => decide ¬(e.source = idx ∨ e.target = idx) :=
        List.filter_congr fun e he => decide_eq_decide.mpr
          (not_congr (deleteEdgePred_iff_incident r idx hrefl e he))
      have hfi : (r.edges.filter fun e =>
          decide (deleteEdgePred idx (r.get_neighbors_idx idx fun _ => true) e)) =
          r.edges.filter fun e => decide (e.source = idx ∨ e.target = idx) :=
        List.filter_congr fun e he => decide_eq_decide.mpr
          (deleteEdgePred_iff_incident r idx hrefl e he)
      have hmapid : ((r.edges.filter fun e =>
          decide (deleteEdgePred idx (r.get_neighbors_idx idx fun _ => true) e)).foldl
            (disconnectStep ops) r.nodes).map (·.id) = r.nodes.map (·.id) :=
        map_id_of_get?_id _ _ fun j => disconnectFold_id ..
      refine ⟨fun e hh => ?_, ⟨fun hh => ?_, fun hh => ?_⟩, fun idx' hidx' _ => ?_⟩
      · cases hh
      · cases hh
      · -- DeleteInUsed is impossible here: the downstream check was false
        exfalso
        obtain ⟨idx2, hidx2, ee, hee, hs, hdn, _⟩ := hh
        cases Except.ok.inj hidx2
        have : (r.edges.any fun e =>
            decide (e.source = idx ∧ e.weight.edge_type.is_downstream = true)) = true :=
          List.any_eq_true.mpr ⟨ee, hee, decide_eq_true ⟨hs, hdn⟩⟩
        rw [this] at hnd'
        cases hnd'
      · cases Except.ok.inj hidx'
        refine ⟨hfe, by rw [hfi], rfl, hmapid, ?_, rfl, rfl⟩
        have := congrArg List.length hmapid
        rw [List.length_map, List.length_map] at this
        exact this


/-- Witness for C5: deleting the project of `rPSc` (which `Contains`
the source) is refused with `DeleteInUsed`. -/
theorem c5_delete_entity_spec_witness :
    ReflexiveEdges rPSc ∧ EdgesLive rPSc ∧
    (Registry.delete_entity_by_id unitOps rPSc 1).1 = .error (.DeleteInUsed 1) :=
  ⟨by decide, by decide,
    (c5_delete_entity_spec unitOps rPSc 1 (by decide) (by decide)).2.1.mpr
      ⟨0, by decide, by decide⟩⟩

theorem head?_append_of_head? {A : Type} {l : List A} {x : A} (l2 : List A)
    (h : l.head? = some x) : (l ++ l2).head? = some x := by
  cases l with
  | nil => cases h
  | cons a rest => exact h

/-- The fold of `bfsPush` preserves the loop invariants: the head of
the entity list, its nodup-ness, a length bound, and the provenance of
every recorded edge index. -/
theorem bfsPush_foldl_inv {EP : Type} (Q : Nat → Prop) (l : List (Nat × EdgeRec EP)) :
    ∀ (st : List Nat × List Nat) (x : Nat),
    st.1.head? = some x → st.1.Nodup → (∀ i ∈ st.2, Q i) → (∀ p ∈ l, Q p.1) →
    (l.foldl bfsPush st).1.head? = some x ∧
    (l.foldl bfsPush st).1.Nodup ∧
    (l.foldl bfsPush st).1.length ≤ st.1.length + l.length ∧
    (∀ i ∈ (l.foldl bfsPush st).2, Q i) := by
  induction l with
  | nil => exact fun st x hh hn hq _ => ⟨hh, hn, by simp, hq⟩
  | cons p rest ih =>
    intro st x hh hn hq hl
    rw [List.foldl_cons]
    have hstep : (bfsPush st p).1.head? = some x ∧ (bfsPush st p).1.Nodup ∧
        (bfsPush st p).1.length ≤ st.1.length + 1 ∧ (∀ i ∈ (bfsPush st p).2, Q i) := by
      unfold bfsPush
      refine ⟨?_, ?_, ?_, ?_⟩
      · by_cases hm : p.2.target ∈ st.1
        · simp only [if_pos hm]; exact hh
        · simp only [if_neg hm]; exact head?_append_of_head? _ hh
      · by_cases hm : p.2.target ∈ st.1
        · simp only [if_pos hm]; exact hn
        · simp only [if_neg hm]
          rw [← List.concat_eq_append]
          exact List.Nodup.concat hm hn
      · by_cases hm : p.2.target ∈ st.1
        · simp only [if_pos hm]; omega
        · simp only [if_neg hm]
          rw [List.length_append, List.length_singleton]
      · intro i hi
        by_cases hm : p.1 ∈ st.2
        · simp only [if_pos hm] at hi; exact hq i hi
        · simp only [if_neg hm] at hi
          rcases List.mem_append.mp hi with hi' | hi'
          · exact hq i hi'
          · cases List.mem_singleton.mp hi'
            exact hl p (List.mem_cons_self ..)
    have := ih (bfsPush st p) x hstep.1 hstep.2.1 hstep.2.2.2
      (fun q hq' => hl q (List.mem_cons_of_mem _ hq'))
    refine ⟨this.1, this.2.1, ?_, this.2.2.2⟩
    calc ((rest.foldl bfsPush (bfsPush st p)).1).length
        ≤ (bfsPush st p).1.length + rest.length := this.2.2.1
      _ ≤ st.1.length + 1 + rest.length := by omega
      _ = st.1.length + (p :: rest).length := by rw [List.length_cons]; omega

/-- Every candidate edge delivered by `bfsNextEdges` is a real edge of
the arena satisfying the edge predicate. -/
theorem bfsNextEdges_sound {NP EP : Type} (r : Registry NP EP) (cur : Nat)
    (ep : Entity NP → Bool) (fp : Edge EP → Bool) (p : Nat × EdgeRec EP)
    (h : p ∈ bfsNextEdges r cur ep fp) :
    r.edges.get? p.1 = some p.2 ∧ fp p.2.weight = true := by
  unfold bfsNextEdges at h
  obtain ⟨hmem, hcond⟩ := List.mem_filter.mp h
  constructor
  · rw [List.get?_eq_getElem?]
    exact List.mem_enum_iff_getElem?.mp hmem
  · have h1 := Bool.and_elim_left hcond
    exact Bool.and_elim_right h1

/-- The invariant through the whole BFS loop. -/
theorem bfsLoop_inv {NP EP : Type} (r : Registry NP EP) (ep : Entity NP → Bool)
    (fp : Edge EP → Bool) (limit : Nat) (x : Nat) :
    ∀ (n : Nat) (entities edgesAcc : List Nat) (offset : Nat), limit - offset ≤ n →
    entities.head? = some x → entities.Nodup →
    entities.length ≤ max limit 1 →
    (∀ i ∈ edgesAcc, ∃ erec, r.edges.get? i = some erec ∧ fp erec.weight = true) →
    (bfsLoop r ep fp limit entities edgesAcc offset).1.head? = some x ∧
    (bfsLoop r ep fp limit entities edgesAcc offset).1.Nodup ∧
    (bfsLoop r ep fp limit entities edgesAcc offset).1.length ≤ max limit 1 ∧
    (∀ i ∈ (bfsLoop r ep fp limit entities edgesAcc offset).2,
      ∃ erec, r.edges.get? i = some erec ∧ fp erec.weight = true) := by
  intro n
  induction n with
  | zero =>
    intro entities edgesAcc offset hfuel hh hn hlen hq
    rw [bfsLoop, dif_neg]
    · exact ⟨hh, hn, hlen, hq⟩
    · rintro ⟨h1, h2⟩
      omega
  | succ m ih =>
    intro entities edgesAcc offset hfuel hh hn hlen hq
    rw [bfsLoop]
    by_cases hcond : entities.length < limit ∧ offset < entities.length
    · rw [dif_pos hcond]
      simp only
      set cur := entities.getD offset 0 with hcur
      set next := (bfsNextEdges r cur ep fp).take (limit - entities.length) with hnext
      have hlq : ∀ p ∈ next, ∃ erec, r.edges.get? p.1 = some erec ∧ fp erec.weight = true := by
        intro p hp
        have hp' := List.mem_of_mem_take hp
        have := bfsNextEdges_sound r cur ep fp p hp'
        exact ⟨p.2, this.1, this.2⟩
      have hfold := bfsPush_foldl_inv
        (fun i => ∃ erec, r.edges.get? i = some erec ∧ fp erec.weight = true)
        next (entities, edgesAcc) x hh hn hq hlq
      have hlen2 : (next.foldl bfsPush (entities, edgesAcc)).1.length ≤ max limit 1 := by
        have h1 : (next.foldl bfsPush (entities, edgesAcc)).1.length ≤
            entities.length + next.length := hfold.2.2.1
        have h2 : next.length ≤ limit - entities.length := by
          rw [hnext]
          exact List.length_take_le ..
        have h3 : entities.length < limit := hcond.1
        omega
      exact ih (next.foldl bfsPush (entities, edgesAcc)).1
        (next.foldl bfsPush (entities, edgesAcc)).2 (offset + 1)
        (by omega) hfold.1 hfold.2.1 hlen2 hfold.2.2.2
    · rw [dif_neg hcond]
      exact ⟨hh, hn, hlen, hq⟩

/-- Distinct arena indices yield entities with distinct ids when the
arena ids are pairwise distinct. -/
theorem filterMap_ids_nodup {NP : Type} (nodes : List (Entity NP))
    (hnd : (nodes.map (·.id)).Nodup) :
    ∀ idxs : List Nat, idxs.Nodup →
    ((idxs.filterMap fun i => nodes.get? i).map (·.id)).Nodup := by
  intro idxs
  induction idxs with
  | nil => intro _; exact List.nodup_nil
  | cons i rest ih =>
    intro hnodup
    have hi : i ∉ rest := (List.nodup_cons.mp hnodup).1
    have hrest := ih (List.nodup_cons.mp hnodup).2
    rw [List.filterMap_cons]
    cases hg : nodes.get? i with
    | none => exact hrest
    | some e =>
      rw [List.map_cons, List.nodup_cons]
      refine ⟨?_, hrest⟩
      intro hmem
      obtain ⟨e', he', heid⟩ := List.mem_map.mp hmem
      obtain ⟨j, hj, hgj⟩ := List.mem_filterMap.mp he'
      have hij : i ≠ j := fun hc => hi (hc ▸ hj)
      have hlt : i < nodes.length := (List.get?_eq_some.mp hg).1
      have hlt' : i < (nodes.map (·.id)).length := by rw [List.length_map]; exact hlt
      have hgeq : (nodes.map (·.id)).get? i = (nodes.map (·.id)).get? j := by
        rw [List.get?_map, List.get?_map, hg, hgj]
        simp only [Option.map_some']
        rw [heid]
      exact hij (List.get?_inj hlt' hnd hgeq)

/-- With enough fuel (`size_limit - offset` suffices), the fuelled
loop computes exactly the well-founded loop: fuel runs out only when
`offset ≥ size_limit`, where the loop condition is false anyway. -/
theorem bfsLoop_eq_fuel {NP EP : Type} (r : Registry NP EP) (ep : Entity NP → Bool)
    (fp : Edge EP → Bool) (limit : Nat) :
    ∀ (n : Nat) (entities edgesAcc : List Nat) (offset : Nat), limit - offset ≤ n →
    bfsLoopFuel r ep fp limit n entities edgesAcc offset =
      bfsLoop r ep fp limit entities edgesAcc offset := by
  intro n
  induction n with
  | zero =>
    intro entities edgesAcc offset hfuel
    rw [bfsLoop, dif_neg]
    · rfl
    · rintro ⟨h1, h2⟩
      omega
  | succ m ih =>
    intro entities edgesAcc offset hfuel
    rw [bfsLoop]
    by_cases hcond : entities.length < limit ∧ offset < entities.length
    · rw [dif_pos hcond]
      rw [bfsLoopFuel, if_pos hcond]
      exact ih _ _ (offset + 1) (by omega)
    · rw [dif_neg hcond]
      rw [bfsLoopFuel, if_neg hcond]


/-- C7 amended: BFS properties — for every registry whose id index is
consistent and whose arena ids are pairwise distinct, whenever
`bfs(id, edge_type, size_limit)` succeeds it returns an entity list
whose first element is the starting entity, whose entity ids are
pairwise distinct (no duplicates), together with traversed edges all
of the requested edge type, and the entity list's length never exceeds
`max size_limit 1` (the start entity is returned even when
`size_limit = 0`; the loop is a total function — it runs at most
`size_limit` iterations). -/
theorem c7_bfs_properties {NP EP : Type} (r : Registry NP EP) (uuid : Uuid) (et : EdgeType)
    (limit : Nat) (ents : List (Entity NP)) (eds : List (Edge EP))
    (hmc : MapConsistent r) (hnd : (r.nodes.map (·.id)).Nodup)
    (hres : r.bfs uuid et limit = .ok (ents, eds)) :
    (∃ st, ents.head? = some st ∧ st.id = uuid) ∧
    (ents.map (·.id)).Nodup ∧
    (∀ e ∈ eds, e.edge_type = et) ∧
    ents.length ≤ max limit 1 := by
  unfold Registry.bfs Registry.bfs_traversal at hres
  cases hidx : r.get_idx uuid with
  | error e => rw [hidx] at hres; cases hres
  | ok idx =>
    rw [hidx] at hres
    simp only at hres
    have hlook := get_idx_lookup hidx
    obtain ⟨st0, hst0, hst0id⟩ := hmc _ (lookup_mem _ _ _ hlook.1)
    have hloop := bfsLoop_inv r (fun _ => true) (fun e => decide (e.edge_type = et))
      limit idx (limit - 0) [idx] [] 0 (Nat.le_refl _) rfl (List.nodup_singleton idx)
      (by rw [List.length_singleton]; omega) (fun i hi => absurd hi (List.not_mem_nil i))
    set stp := bfsLoop r (fun _ => true) (fun e => decide (e.edge_type = et))
      limit [idx] [] 0 with hstp
    have hents : ents = stp.1.filterMap fun i => r.nodes.get? i := by
      cases Except.ok.inj hres
      rfl
    have heds : eds = stp.2.filterMap fun i => (r.edges.get? i).map (·.weight) := by
      cases Except.ok.inj hres
      rfl
    refine ⟨?_, ?_, ?_, ?_⟩
    · refine ⟨st0, ?_, hst0id⟩
      rw [hents]
      cases hl : stp.1 with
      | nil => rw [hl] at hloop; cases hloop.1
      | cons a rest =>
        rw [hl] at hloop
        have ha : a = idx := Option.some.inj hloop.1
        rw [List.filterMap_cons, ha, hst0]
        rfl
    · rw [hents]
      exact filterMap_ids_nodup r.nodes hnd stp.1 hloop.2.1
    · intro e he
      rw [heds] at he
      obtain ⟨i, hi, hgi⟩ := List.mem_filterMap.mp he
      obtain ⟨erec, herec, hfp⟩ := hloop.2.2.2 i hi
      rw [herec] at hgi
      cases Option.some.inj hgi
      exact of_decide_eq_true hfp
    · rw [hents]
      calc (stp.1.filterMap fun i => r.nodes.get? i).length
          ≤ stp.1.length := List.length_filterMap_le ..
        _ ≤ max limit 1 := hloop.2.2.1


/-- Witness for C7: the BFS from the project of `rPSc` along
`Contains` with limit 5 finds the project and then the source over the
single Contains edge. -/
theorem c7_bfs_properties_witness :
    MapConsistent rPSc ∧ (rPSc.nodes.map (·.id)).Nodup ∧
    rPSc.bfs 1 .Contains 5 = .ok (c7WitnessEntities, c7WitnessEdges) ∧
    (c7WitnessEntities.map (·.id)).Nodup ∧
    (∀ e ∈ c7WitnessEdges, e.edge_type = .Contains) ∧
    c7WitnessEntities.length ≤ max 5 1 := by
  have h1 : rPSc.bfs 1 .Contains 5 = .ok
      ((bfsLoop rPSc (fun _ => true) (fun e => decide (e.edge_type = .Contains))
          5 [0] [] 0).1.filterMap (fun i => rPSc.nodes.get? i),
       (bfsLoop rPSc (fun _ => true) (fun e => decide (e.edge_type = .Contains))
          5 [0] [] 0).2.filterMap (fun i => (rPSc.edges.get? i).map (·.weight))) := by
    unfold Registry.bfs Registry.bfs_traversal
    rw [show rPSc.get_idx 1 = Except.ok 0 from rfl]
  rw [← bfsLoop_eq_fuel rPSc (fun _ => true) (fun e => decide (e.edge_type = .Contains))
    5 5 [0] [] 0 (by omega)] at h1
  have hres : rPSc.bfs 1 .Contains 5 = .ok (c7WitnessEntities, c7WitnessEdges) := by
    rw [h1]
    decide
  have happ := c7_bfs_properties rPSc 1 .Contains 5 c7WitnessEntities c7WitnessEdges
    (by decide) (by decide) hres
  exact ⟨by decide, by decide, hres, happ.2.1, happ.2.2.1, happ.2.2.2⟩


end FeathrRegistry
